import Mathlib

/-!
Verification of the pixel-analysis engine of the webImAnalyzer repository.

The JavaScript source is shallowly embedded in Lean: pixels are RGBA
quadruples of naturals, JavaScript numbers that only ever hold exact
decimal fractions are modelled as rationals (`ℚ`), `Math.round` is the
Mathlib `round` (round half towards `+∞`, exactly JavaScript's rule),
`Math.floor` is `Int.floor`, and the square root appearing in the
standard deviation is `Real.sqrt` on the exactly-kept rational variance.
Fallible operations return `Option`.
-/

/-- One RGBA pixel as extracted from a canvas buffer (each channel `0..255`
in the real program; the embedding keeps the channels as naturals). -/
structure RGBA where
  r : ℕ
  g : ℕ
  b : ℕ
  a : ℕ
deriving DecidableEq, Repr, Inhabited

/-- The exact value of `0.299 * r + 0.587 * g + 0.114 * b`. -/
def brightnessQ (r g b : ℕ) : ℚ :=
  (299 * r + 587 * g + 114 * b : ℚ) / 1000

/-- `Math.round(0.299*r + 0.587*g + 0.114*b)` — the luminance used all over
the source (`analyzePixelData`, `getOriginalPixelData`).  `round` on `ℚ`
is `⌊x + 1/2⌋`, which is exactly JavaScript's `Math.round`. -/
def jsBrightness (r g b : ℕ) : ℕ :=
  (round (brightnessQ r g b)).toNat

/-- The running per-pixel statistics of `analyzePixelData`
(`src/unnamed/part_000`, lines 158-164). -/
structure PixelStatistics where
  brightnessHistogram : List ℕ
  redHistogram : List ℕ
  greenHistogram : List ℕ
  blueHistogram : List ℕ
  validPixelCount : ℕ
deriving DecidableEq, Repr, Inhabited

/-- `if (v >= 0 && v <= 255) hist[v]++` — the guarded histogram increment of
`analyzePixelData` (the `v ≥ 0` half is vacuous for naturals). -/
def histIncr (h : List ℕ) (v : ℕ) : List ℕ :=
  if v ≤ 255 then h.set v (h.getD v 0 + 1) else h

/-- Initial value of the `statistics` object of `analyzePixelData`:
four zeroed 256-bin histograms and a zero valid-pixel count. -/
def initialStats : PixelStatistics :=
  ⟨List.replicate 256 0, List.replicate 256 0, List.replicate 256 0,
   List.replicate 256 0, 0⟩

/-- The brightness of one RGBA pixel, as `analyzePixelData` computes it. -/
def pixelBrightness (p : RGBA) : ℕ :=
  jsBrightness p.r p.g p.b

/-- One iteration of the pixel loop of `analyzePixelData`
(`src/unnamed/part_000`, lines 167-187): pixels with `a = 0` are skipped,
otherwise the brightness is appended and all four histograms updated. -/
def analyzeStep (acc : List ℕ × PixelStatistics) (p : RGBA) :
    List ℕ × PixelStatistics :=
  if 0 < p.a then
    let br := pixelBrightness p
    (acc.1 ++ [br],
     { brightnessHistogram := histIncr acc.2.brightnessHistogram br
       redHistogram := histIncr acc.2.redHistogram p.r
       greenHistogram := histIncr acc.2.greenHistogram p.g
       blueHistogram := histIncr acc.2.blueHistogram p.b
       validPixelCount := acc.2.validPixelCount + 1 })
  else acc

/-- The `snData` object of `analyzePixelData`.  The JavaScript stores
`mean`, `stdDev = Math.sqrt(variance)`, `snRatio` and `pixelCount`; the
embedding keeps the exact rational `variance` and derives the (in general
irrational) `stdDev` and `snRatio` through `snStdDev` and `snRatio` below. -/
structure SnData where
  mean : ℚ
  variance : ℚ
  pixelCount : ℕ
deriving DecidableEq, Repr, Inhabited

/-- The full return value of `analyzePixelData`. -/
structure AnalysisResult where
  brightnesses : List ℕ
  statistics : PixelStatistics
  snData : SnData
deriving DecidableEq, Repr, Inhabited

/-- `analyzePixelData` (`src/unnamed/part_000`, lines 149-212): null on an
empty buffer, one pass over the pixels skipping `a = 0`, null again if no
pixel survived, then `mean = Σb/n` and `variance = Σ(b-mean)²/n` over the
collected brightness list. -/
def analyzePixelData (pixels : List RGBA) : Option AnalysisResult :=
  if pixels.length = 0 then none
  else
    let acc := pixels.foldl analyzeStep ([], initialStats)
    let brightnesses := acc.1
    if brightnesses.length = 0 then none
    else
      let n : ℚ := brightnesses.length
      let mean : ℚ := brightnesses.foldl (fun (s : ℚ) (v : ℕ) => s + (v : ℚ)) 0 / n
      let variance : ℚ :=
        brightnesses.foldl (fun (s : ℚ) (v : ℕ) => s + ((v : ℚ) - mean) ^ 2) 0 / n
      some ⟨brightnesses, acc.2, ⟨mean, variance, brightnesses.length⟩⟩

/-- `stdDev = Math.sqrt(variance)` of `analyzePixelData` line 197. -/
noncomputable def snStdDev (d : SnData) : ℝ :=
  Real.sqrt (d.variance : ℝ)

/-- `snRatio = stdDev > 0 ? mean / stdDev : Infinity` of `analyzePixelData`
line 198, as an extended real.  The branch condition is stated on the exact
variance: `stdDev > 0 ↔ variance > 0` by `Real.sqrt_pos`. -/
noncomputable def snRatioE (d : SnData) : EReal :=
  if 0 < d.variance then (((d.mean : ℝ) / snStdDev d : ℝ) : EReal) else ⊤

/-- The property claimed for a non-null `analyzePixelData` result: the
statistics range over exactly the non-transparent pixels. -/
noncomputable def analyzeResultSpec (pixels : List RGBA) (res : AnalysisResult) : Prop :=
  let valid := pixels.filter (fun p => 0 < p.a)
  let bs : List ℚ := valid.map (fun p => (pixelBrightness p : ℚ))
  let n : ℚ := valid.length
  res.snData.pixelCount = valid.length ∧
  res.snData.mean = bs.sum / n ∧
  res.snData.variance = (bs.map (fun b => (b - res.snData.mean) ^ 2)).sum / n ∧
  snStdDev res.snData = Real.sqrt (res.snData.variance : ℝ) ∧
  (0 < snStdDev res.snData →
    snRatioE res.snData = (((res.snData.mean : ℝ) / snStdDev res.snData : ℝ) : EReal)) ∧
  (snStdDev res.snData = 0 → snRatioE res.snData = ⊤)

/-- Running cumulative count of the first `i + 1` histogram bins; used to
state the median/quartile claims. -/
def cumCount (h : List ℕ) (i : ℕ) : ℕ :=
  (h.take (i + 1)).sum

/-- Relative index of the first prefix of `l` whose cumulative sum, added
to the sum `cum` accumulated so far, reaches the threshold `t`.  This is
the shape shared by the median loop and the quartile loop of the source. -/
def firstReach (t : ℚ) (cum : ℕ) : List ℕ → Option ℕ
  | [] => none
  | c :: rest =>
      if t ≤ ((cum + c : ℕ) : ℚ) then some 0
      else (firstReach t (cum + c) rest).map (· + 1)

/-- The median loop of `calculateHistogramStatistics`
(`src/unnamed/part_000`, lines 300-309): walk the bins accumulating
`cumSum`, stop at the first bin where `cumSum ≥ total/2`; `median` keeps
its initial value `0` if the threshold is never met. -/
def medianGo (total : ℕ) : List ℕ → ℕ → ℕ → ℕ
  | [], _, _ => 0
  | c :: rest, i, cumSum =>
      let cs := cumSum + c
      if (total : ℚ) / 2 ≤ (cs : ℚ) then i else medianGo total rest (i + 1) cs

/-- `Math.max(...histogram)` over a list of naturals (a fold with `0`,
which agrees with the spread maximum on the non-empty histograms the
source applies it to). -/
def histMax (h : List ℕ) : ℕ :=
  h.foldl max 0

/-- The result object of `calculateHistogramStatistics`.  `variance` keeps
the exact rational value whose square root the JavaScript stores as
`stdDev`. -/
structure HistStats where
  totalPixels : ℕ
  mean : ℚ
  median : ℕ
  mode : ℕ
  variance : ℚ
  maxValue : ℕ
  minValue : ℤ
  maxValueIndex : ℤ
  range : ℤ
deriving DecidableEq, Repr, Inhabited

/-- `sum += i * histogram[i]` of `calculateHistogramStatistics`, lines
294-297. -/
def histWeightedSum (h : List ℕ) : ℚ :=
  h.enum.foldl (fun s p => s + (p.1 : ℚ) * (p.2 : ℚ)) 0

/-- `mean = sum / totalPixels`, line 298. -/
def histMean (h : List ℕ) : ℚ :=
  histWeightedSum h / (h.sum : ℚ)

/-- The median value of `calculateHistogramStatistics`, lines 300-309. -/
def histMedian (h : List ℕ) : ℕ :=
  medianGo h.sum h 0 0

/-- `mode = histogram.indexOf(Math.max(...histogram))`, lines 312-313. -/
def histMode (h : List ℕ) : ℕ :=
  h.indexOf (histMax h)

/-- `variance += count * (i - mean)²` accumulated over all bins, lines
316-320 (the JavaScript stores `stdDev = √(variance / totalPixels)`; the
embedding keeps the exact radicand). -/
def histVarianceSum (h : List ℕ) : ℚ :=
  h.enum.foldl (fun s p => s + (p.2 : ℚ) * ((p.1 : ℚ) - histMean h) ^ 2) 0

/-- The indices of the non-empty bins in increasing order (the loop of
lines 324-330 records the first such index in `minValue` and the last in
`maxValueIndex`, both `-1` when none exists). -/
def histNzIdx (h : List ℕ) : List ℕ :=
  (h.enum.filter (fun p => 0 < p.2)).map (fun p => p.1)

/-- `minValue` before the `-1` fix-up, lines 324-330. -/
def histMinValue0 (h : List ℕ) : ℤ :=
  (((histNzIdx h).head?).map (fun i => (i : ℤ))).getD (-1)

/-- `maxValueIndex` before the `-1` fix-up, lines 324-330. -/
def histMaxValueIndex0 (h : List ℕ) : ℤ :=
  (((histNzIdx h).getLast?).map (fun i => (i : ℤ))).getD (-1)

/-- `calculateHistogramStatistics` (`src/unnamed/part_000`, lines
289-343): null iff the total count is zero; otherwise mean, first-hit
median, `indexOf`-based mode, variance, and the lowest/highest non-zero
bins (with the `-1` sentinel of the source mapped through its final
ternaries). -/
def calculateHistogramStatistics (histogram : List ℕ) : Option HistStats :=
  if histogram.sum = 0 then none
  else
    some ⟨histogram.sum, histMean histogram, histMedian histogram,
      histMode histogram, histVarianceSum histogram / (histogram.sum : ℚ),
      histMax histogram,
      (if histMinValue0 histogram = -1 then 0 else histMinValue0 histogram),
      (if histMaxValueIndex0 histogram = -1 then 0 else histMaxValueIndex0 histogram),
      (if histMaxValueIndex0 histogram = -1 then 0
       else histMaxValueIndex0 histogram - histMinValue0 histogram)⟩

/-- The property claimed for a non-null `calculateHistogramStatistics`
result on histogram `h`: null-total behaviour aside, the median is the
smallest index whose running cumulative count reaches `total/2`, the mode
is the first index attaining the maximum count, and the mean is the
count-weighted average index. -/
def histStatsSpec (h : List ℕ) (st : HistStats) : Prop :=
  st.totalPixels = h.sum ∧
  st.median < h.length ∧
  (st.totalPixels : ℚ) / 2 ≤ (cumCount h st.median : ℚ) ∧
  (∀ j < st.median, (cumCount h j : ℚ) < (st.totalPixels : ℚ) / 2) ∧
  st.mode < h.length ∧
  (∀ j < h.length, h.getD j 0 ≤ h.getD st.mode 0) ∧
  (∀ j < st.mode, h.getD j 0 < h.getD st.mode 0) ∧
  st.mean = ((h.enum.map (fun p => (p.1 : ℚ) * (p.2 : ℚ))).sum) / (st.totalPixels : ℚ)

/-- A loaded image: dimensions plus an RGBA grid (a total function on `ℤ`
coordinates; callers bound-check before reading, as the canvas does). -/
structure Img where
  width : ℕ
  height : ℕ
  pix : ℤ → ℤ → RGBA

/-- A display-space rectangle, as stored in `currentRect`. -/
structure Rect where
  x : ℚ
  y : ℚ
  width : ℚ
  height : ℚ
deriving DecidableEq, Repr, Inhabited

/-- A source-space analysis region produced by `calculateAnalysisRegion`. -/
structure Region where
  x : ℤ
  y : ℤ
  width : ℤ
  height : ℤ
deriving DecidableEq, Repr, Inhabited

/-- The four histograms saved by `saveAnalysisResults` into
`currentHistogramData`. -/
structure HistogramData where
  brightness : List ℕ
  red : List ℕ
  green : List ℕ
  blue : List ℕ
deriving DecidableEq, Repr, Inhabited

/-- The mutable fields of the `ImageAnalyzer` instance that the analysed
claims touch (`initializeProperties` in `src/unnamed/part_000`). -/
structure AnalyzerState where
  currentImage : Option Img
  displayedWidth : ℚ
  displayedHeight : ℚ
  imageOffsetX : ℚ
  imageOffsetY : ℚ
  isAnalyzing : Bool
  isDrawing : Bool
  startX : ℚ
  startY : ℚ
  currentRect : Option Rect
  currentHistogramData : Option HistogramData
  statusMessage : String

/-- One sampled pixel, as returned by `getOriginalPixelData`. -/
structure PixelData where
  r : ℕ
  g : ℕ
  b : ℕ
  a : ℕ
  brightness : ℕ
deriving DecidableEq, Repr, Inhabited

/-- The bounds-checked single-pixel read at the heart of
`getOriginalPixelData` (`src/js/image-processing.js`, lines 190-235),
given the loaded image. -/
def getOriginalPixelDataImg (img : Img) (x y : ℤ) : Option PixelData :=
  if x < 0 ∨ (img.width : ℤ) ≤ x ∨ y < 0 ∨ (img.height : ℤ) ≤ y then none
  else
    let c := img.pix x y
    some ⟨c.r, c.g, c.b, c.a, jsBrightness c.r c.g c.b⟩

/-- `getOriginalPixelData`: null without a loaded image, otherwise the
bounds-checked read above. -/
def getOriginalPixelData (s : AnalyzerState) (x y : ℤ) : Option PixelData :=
  match s.currentImage with
  | none => none
  | some img => getOriginalPixelDataImg img x y

/-- `displayToOriginalCoords` (`src/js/image-processing.js`, lines
243-271): subtract the display offset, reject points outside
`[0, displayedWidth) × [0, displayedHeight)`, then floor the scaled
coordinate and clamp it to `dimension - 1`. -/
def displayToOriginalCoords (s : AnalyzerState) (displayX displayY : ℚ) :
    Option (ℤ × ℤ) :=
  match s.currentImage with
  | none => none
  | some img =>
    if s.displayedWidth = 0 ∨ s.displayedHeight = 0 then none
    else
      let imageX := displayX - s.imageOffsetX
      let imageY := displayY - s.imageOffsetY
      if imageX < 0 ∨ s.displayedWidth ≤ imageX ∨
          imageY < 0 ∨ s.displayedHeight ≤ imageY then none
      else
        some (min ⌊imageX / s.displayedWidth * (img.width : ℚ)⌋ ((img.width : ℤ) - 1),
              min ⌊imageY / s.displayedHeight * (img.height : ℚ)⌋ ((img.height : ℤ) - 1))

/-- `originalToDisplayCoords` (`src/js/image-processing.js`, lines
279-298): reject source coordinates outside the image, otherwise scale up
and add the offset, without rounding. -/
def originalToDisplayCoords (s : AnalyzerState) (originalX originalY : ℚ) :
    Option (ℚ × ℚ) :=
  match s.currentImage with
  | none => none
  | some img =>
    if s.displayedWidth = 0 ∨ s.displayedHeight = 0 then none
    else if originalX < 0 ∨ (img.width : ℚ) ≤ originalX ∨
        originalY < 0 ∨ (img.height : ℚ) ≤ originalY then none
    else
      some (originalX / (img.width : ℚ) * s.displayedWidth + s.imageOffsetX,
            originalY / (img.height : ℚ) * s.displayedHeight + s.imageOffsetY)

/-- Fuel-indexed body of the Bresenham loop of `PixelSampler.sample`
(`src/js/line-profile.js`, lines 90-102), emitting the visited source
points in order.  One fuel unit per emitted point; `bresPoints` supplies
fuel strictly larger than the number of iterations the loop performs, so
the `0` branch is never reached on the calls the program makes (this is
proved, not assumed: the endpoint theorem shows the emitted list ends at
`(x1, y1)`, i.e. the loop ran to its `break`). -/
def bresPointsAux (x1 y1 dx dy sx sy : ℤ) :
    ℕ → ℤ → ℤ → ℤ → List (ℤ × ℤ)
  | 0, _, _, _ => []
  | n + 1, x, y, err =>
      (x, y) ::
        (if x = x1 ∧ y = y1 then []
         else
           let e2 := 2 * err
           let mx : ℤ × ℤ := if dy ≤ e2 then (err + dy, x + sx) else (err, x)
           let my : ℤ × ℤ := if e2 ≤ dx then (mx.1 + dx, y + sy) else (mx.1, y)
           bresPointsAux x1 y1 dx dy sx sy n mx.2 my.2 my.1)

/-- The integer Bresenham rasterization of `PixelSampler.sample`: set up
`dx = |x1-x0|`, `dy = -|y1-y0|`, the step signs and the symmetric error
accumulator `err = dx + dy`, then run the loop. -/
def bresPoints (x0 y0 x1 y1 : ℤ) : List (ℤ × ℤ) :=
  let dx := |x1 - x0|
  let sx : ℤ := if x0 < x1 then 1 else -1
  let dy := -|y1 - y0|
  let sy : ℤ := if y0 < y1 then 1 else -1
  bresPointsAux x1 y1 dx dy sx sy ((dx - dy).toNat + 1) x0 y0 (dx + dy)

/-- The `{r, g, b, brightness}` parallel sequences of a line profile. -/
structure LineValues where
  r : List ℕ
  g : List ℕ
  b : List ℕ
  brightness : List ℕ
deriving DecidableEq, Repr, Inhabited

/-- The rounded source-space endpoints and rasterized point list of
`PixelSampler.sample` (lines 73-88): both display endpoints are offset,
scaled by `image.dimension / displayedDimension` and `Math.round`ed. -/
def lineSourcePoints (img : Img) (s : AnalyzerState) (a b : ℚ × ℚ) :
    List (ℤ × ℤ) :=
  let scaleX := (img.width : ℚ) / s.displayedWidth
  let scaleY := (img.height : ℚ) / s.displayedHeight
  let x0 := round ((a.1 - s.imageOffsetX) * scaleX)
  let y0 := round ((a.2 - s.imageOffsetY) * scaleY)
  let x1 := round ((b.1 - s.imageOffsetX) * scaleX)
  let y1 := round ((b.2 - s.imageOffsetY) * scaleY)
  bresPoints x0 y0 x1 y1

/-- One loop iteration of `PixelSampler.sample`: push the four channel
values when the pixel read succeeds, otherwise leave the sequences
untouched. -/
def samplePush (img : Img) (vals : LineValues) (p : ℤ × ℤ) : LineValues :=
  match getOriginalPixelDataImg img p.1 p.2 with
  | some px => ⟨vals.r ++ [px.r], vals.g ++ [px.g],
                vals.b ++ [px.b], vals.brightness ++ [px.brightness]⟩
  | none => vals

/-- `PixelSampler.sample` (`src/js/line-profile.js`, lines 68-104): null
without a loaded image; otherwise rasterize the rounded source segment and
collect the in-bounds pixel values in visit order. -/
def pixelSamplerSample (s : AnalyzerState) (a b : ℚ × ℚ) :
    Option LineValues :=
  match s.currentImage with
  | none => none
  | some img =>
      some ((lineSourcePoints img s a b).foldl (samplePush img) ⟨[], [], [], []⟩)

/-- The property claimed for a non-null `PixelSampler.sample` result: each
of the four sequences collects, in visit order, exactly the channel values
of the rasterized steps whose pixel read succeeded (out-of-bounds steps
are skipped, not zero-filled), so the sequences have equal length and a
line all of whose steps fall outside the image yields four empty
sequences. -/
def lineSampleSpec (img : Img) (s : AnalyzerState) (a b : ℚ × ℚ)
    (v : LineValues) : Prop :=
  (v.r = (lineSourcePoints img s a b).filterMap
      (fun p => (getOriginalPixelDataImg img p.1 p.2).map (fun px => px.r)) ∧
   v.g = (lineSourcePoints img s a b).filterMap
      (fun p => (getOriginalPixelDataImg img p.1 p.2).map (fun px => px.g)) ∧
   v.b = (lineSourcePoints img s a b).filterMap
      (fun p => (getOriginalPixelDataImg img p.1 p.2).map (fun px => px.b)) ∧
   v.brightness = (lineSourcePoints img s a b).filterMap
      (fun p => (getOriginalPixelDataImg img p.1 p.2).map (fun px => px.brightness))) ∧
  (v.r.length = v.brightness.length ∧ v.g.length = v.brightness.length ∧
   v.b.length = v.brightness.length) ∧
  ((∀ p ∈ lineSourcePoints img s a b,
      getOriginalPixelDataImg img p.1 p.2 = none) → v = ⟨[], [], [], []⟩)

/-- A detected peak of `PeakDetector.findPeaks`. -/
structure Peak where
  index : ℕ
  value : ℚ
deriving DecidableEq, Repr, Inhabited

/-- `PeakDetector.findPeaks` (`src/js/line-profile.js`, lines 107-119):
scan the interior indices `1 ≤ i ≤ len-2` in order and record `{i,
values[i]}` whenever `values[i]` exceeds both neighbours by more than the
threshold (strict local maximum and strict margin). -/
def findPeaks (values : List ℚ) (threshold : ℚ) : List Peak :=
  (List.range values.length).filterMap (fun i =>
    if 1 ≤ i ∧ i + 1 < values.length then
      let prev := values.getD (i - 1) 0
      let cur := values.getD i 0
      let next := values.getD (i + 1) 0
      if prev < cur ∧ next < cur ∧ threshold < cur - prev ∧ threshold < cur - next
      then some ⟨i, cur⟩ else none
    else none)

/-- `findPeaks` with the default threshold `5` of the source. -/
def findPeaksDefault (values : List ℚ) : List Peak :=
  findPeaks values 5

/-- `scaleX = image.width / displayedWidth` of `calculateAnalysisRegion`
(`src/unnamed/part_000`, line 70). -/
def regionScaleX (img : Img) (s : AnalyzerState) : ℚ :=
  (img.width : ℚ) / s.displayedWidth

/-- `scaleY` of `calculateAnalysisRegion`, line 71. -/
def regionScaleY (img : Img) (s : AnalyzerState) : ℚ :=
  (img.height : ℚ) / s.displayedHeight

/-- `rectStartX = Math.round((rect.x - offsetX) * scaleX)` (line 74). -/
def rectStartX (img : Img) (rect : Rect) (s : AnalyzerState) : ℤ :=
  round ((rect.x - s.imageOffsetX) * regionScaleX img s)

/-- `rectStartY` (line 75). -/
def rectStartY (img : Img) (rect : Rect) (s : AnalyzerState) : ℤ :=
  round ((rect.y - s.imageOffsetY) * regionScaleY img s)

/-- `rectWidth = Math.round(rect.width * scaleX)` (line 76). -/
def rectWidthScaled (img : Img) (rect : Rect) (s : AnalyzerState) : ℤ :=
  round (rect.width * regionScaleX img s)

/-- `rectHeight` (line 77). -/
def rectHeightScaled (img : Img) (rect : Rect) (s : AnalyzerState) : ℤ :=
  round (rect.height * regionScaleY img s)

/-- `clampedStartX = max(0, min(width - 1, rectStartX))` (line 80). -/
def clampedStartX (img : Img) (rect : Rect) (s : AnalyzerState) : ℤ :=
  max 0 (min ((img.width : ℤ) - 1) (rectStartX img rect s))

/-- `clampedStartY` (line 81). -/
def clampedStartY (img : Img) (rect : Rect) (s : AnalyzerState) : ℤ :=
  max 0 (min ((img.height : ℤ) - 1) (rectStartY img rect s))

/-- `clampedEndX = max(0, min(width, rectStartX + rectWidth))` (line 82). -/
def clampedEndX (img : Img) (rect : Rect) (s : AnalyzerState) : ℤ :=
  max 0 (min (img.width : ℤ) (rectStartX img rect s + rectWidthScaled img rect s))

/-- `clampedEndY` (line 83). -/
def clampedEndY (img : Img) (rect : Rect) (s : AnalyzerState) : ℤ :=
  max 0 (min (img.height : ℤ) (rectStartY img rect s + rectHeightScaled img rect s))

/-- `finalWidth = clampedEndX - clampedStartX` (line 85). -/
def finalWidth (img : Img) (rect : Rect) (s : AnalyzerState) : ℤ :=
  clampedEndX img rect s - clampedStartX img rect s

/-- `finalHeight` (line 86). -/
def finalHeight (img : Img) (rect : Rect) (s : AnalyzerState) : ℤ :=
  clampedEndY img rect s - clampedStartY img rect s

/-- The property claimed for a non-null `calculateAnalysisRegion` result:
the region is the clamped rectangle and satisfies the Region invariant. -/
def regionSpec (img : Img) (rect : Rect) (s : AnalyzerState) (reg : Region) : Prop :=
  reg.x = clampedStartX img rect s ∧
  reg.y = clampedStartY img rect s ∧
  reg.width = finalWidth img rect s ∧
  reg.height = finalHeight img rect s ∧
  0 ≤ reg.x ∧ 0 ≤ reg.y ∧
  reg.x + reg.width ≤ (img.width : ℤ) ∧
  reg.y + reg.height ≤ (img.height : ℤ) ∧
  0 < reg.width ∧ 0 < reg.height

/-- `calculateAnalysisRegion` (`src/unnamed/part_000`, lines 69-104):
null when either clamped dimension is `≤ 0`, otherwise the clamped
region. -/
def calculateAnalysisRegion (img : Img) (rect : Rect) (s : AnalyzerState) :
    Option Region :=
  if finalWidth img rect s ≤ 0 ∨ finalHeight img rect s ≤ 0 then none
  else some ⟨clampedStartX img rect s, clampedStartY img rect s,
             finalWidth img rect s, finalHeight img rect s⟩

/-- `extractImageData` (`src/unnamed/part_000`, lines 111-142) draws the
`region.width × region.height` block of the source image on a scratch
canvas and reads its RGBA buffer back; here that buffer is the row-major
list of the region's pixels. -/
def extractImageDataL (img : Img) (reg : Region) : List RGBA :=
  (List.range reg.height.toNat).flatMap (fun row =>
    (List.range reg.width.toNat).map (fun col =>
      img.pix (reg.x + (col : ℤ)) (reg.y + (row : ℤ))))

/-- The `try` body of `performImageAnalysis` (`src/unnamed/part_000`,
lines 20-57), run with the in-progress flag already set.  The two boolean
oracles model the external failure points the JavaScript catches:
`extractOk = false` is the canvas failure that makes `extractImageData`
return null, `displayOk = false` is a throw inside the display update,
which the surrounding `catch` turns into an error status message (the
histogram data has already been saved at that point, as in the source). -/
def performBody (s : AnalyzerState) (extractOk displayOk : Bool) :
    AnalyzerState :=
  match s.currentRect, s.currentImage with
  | none, _ => s
  | some _, none => s
  | some rect, some img =>
    match calculateAnalysisRegion img rect s with
    | none => { s with statusMessage := "解析領域が無効です" }
    | some region =>
      if extractOk then
        match analyzePixelData (extractImageDataL img region) with
        | none => { s with statusMessage := "ピクセル解析に失敗" }
        | some results =>
          let hd : HistogramData :=
            ⟨results.statistics.brightnessHistogram,
             results.statistics.redHistogram,
             results.statistics.greenHistogram,
             results.statistics.blueHistogram⟩
          let saved := { s with currentHistogramData := some hd }
          if displayOk then { saved with statusMessage := "解析完了" }
          else { saved with statusMessage := "解析エラー" }
      else { s with statusMessage := "画像データの取得に失敗" }

/-- `performImageAnalysis` (`src/unnamed/part_000`, lines 11-63): reject
immediately when `isAnalyzing` is already set, otherwise set the flag, run
the guarded body, and clear the flag on the way out (`finally`). -/
def performImageAnalysis (s : AnalyzerState) (extractOk displayOk : Bool) :
    AnalyzerState :=
  if s.isAnalyzing then s
  else
    let s2 := performBody { s with isAnalyzing := true } extractOk displayOk
    { s2 with isAnalyzing := false }

/-- The quartile loop of `generateSingleChannelInfo` (`src/js/events.js`,
lines 566-579): one cumulative scan; `q1` is (re)assigned at index `i`
while the stored `q1` is still `0` and the running sum has reached
`q1Target`; the scan breaks at the first index reaching `q3Target`. -/
def quartileGo (q1t q3t : ℚ) :
    List ℕ → ℕ → ℕ → ℕ → ℕ → ℕ × ℕ
  | [], _, _, q1, q3 => (q1, q3)
  | c :: rest, i, cumSum, q1, q3 =>
      let cs := cumSum + c
      let q1n := if q1 = 0 ∧ q1t ≤ (cs : ℚ) then i else q1
      if q3t ≤ (cs : ℚ) then (q1n, i)
      else quartileGo q1t q3t rest (i + 1) cs q1n q3

/-- The quartile computation of `generateSingleChannelInfo`
(`src/js/events.js`, lines 566-579): targets `total·0.25` and
`total·0.75`, both quartile variables starting at `0`. -/
def computeQuartiles (histogram : List ℕ) : ℕ × ℕ :=
  let total := histogram.sum
  quartileGo ((total : ℚ) * (1 / 4)) ((total : ℚ) * (3 / 4)) histogram 0 0 0 0

/-- The behaviour of the quartile scan on a histogram with positive total,
as amended: `q3` is the smallest index whose cumulative count reaches
`total·3/4`; `q1` is the smallest index whose cumulative count reaches
`total·1/4` when that index is positive, but when index `0` already
reaches the `q1` target and the scan continues past it (`q3 > 0`), the
`q1 === 0` re-assignment quirk of the source yields `q1 = 1`. -/
def quartilesSpec (h : List ℕ) (q1 q3 : ℕ) : Prop :=
  (q3 < h.length ∧
    (h.sum : ℚ) * (3 / 4) ≤ (cumCount h q3 : ℚ) ∧
    (∀ j < q3, (cumCount h j : ℚ) < (h.sum : ℚ) * (3 / 4))) ∧
  (((h.sum : ℚ) * (1 / 4) ≤ (cumCount h 0 : ℚ)) →
    (q3 = 0 → q1 = 0) ∧ (0 < q3 → q1 = 1)) ∧
  ((cumCount h 0 : ℚ) < (h.sum : ℚ) * (1 / 4) →
    ((h.sum : ℚ) * (1 / 4) ≤ (cumCount h q1 : ℚ) ∧
     ∀ j < q1, (cumCount h j : ℚ) < (h.sum : ℚ) * (1 / 4)))

/-- `calculateClampedRectangle` (`src/unnamed/part_002`, lines 228-245):
intersect the dragged rectangle with the displayed image bounds. -/
def calculateClampedRectangle (s : AnalyzerState)
    (startX startY endX endY : ℚ) : Rect :=
  let imageLeft := s.imageOffsetX
  let imageTop := s.imageOffsetY
  let imageRight := s.imageOffsetX + s.displayedWidth
  let imageBottom := s.imageOffsetY + s.displayedHeight
  let rectLeft := max imageLeft (min startX endX)
  let rectTop := max imageTop (min startY endY)
  let rectRight := min imageRight (max startX endX)
  let rectBottom := min imageBottom (max startY endY)
  ⟨rectLeft, rectTop, rectRight - rectLeft, rectBottom - rectTop⟩

/-- `endDrawing` (`src/unnamed/part_002`, lines 187-218), with the mouse
event already converted to canvas coordinates `(endX, endY)`.  The second
component records whether a region analysis was scheduled (the source
queues `performImageAnalysis` through `setTimeout`). -/
def endDrawing (s : AnalyzerState) (endX endY : ℚ) :
    AnalyzerState × Bool :=
  match s.isDrawing, s.currentImage with
  | false, _ => (s, false)
  | true, none => (s, false)
  | true, some _ =>
    let s0 := { s with isDrawing := false }
    let rectData := calculateClampedRectangle s s.startX s.startY endX endY
    if 3 < rectData.width ∧ 3 < rectData.height then
      ({ s0 with currentRect := some rectData }, true)
    else
      ({ s0 with statusMessage := "矩形が小さすぎます" }, false)

/-- A blank `W × H` image used to exercise the coordinate mapper. -/
def imgV (W H : ℕ) : Img :=
  ⟨W, H, fun _ _ => ⟨0, 0, 0, 0⟩⟩

/-- A flat analyzer state displaying `imgV W H` at `dw × dh` with offset
`(ox, oy)`. -/
def mkView (W H : ℕ) (dw dh ox oy : ℚ) : AnalyzerState :=
  ⟨some (imgV W H), dw, dh, ox, oy,
   false, false, 0, 0, none, none, ""⟩

/-- Concrete pixel buffer: one opaque black pixel, one opaque coloured
pixel, one fully transparent pixel. -/
def c1Pixels : List RGBA :=
  [⟨0, 0, 0, 255⟩, ⟨100, 150, 200, 128⟩, ⟨7, 7, 7, 0⟩]

/-- The analysis result the source computes on `c1Pixels`. -/
def c1Res : AnalysisResult :=
  (analyzePixelData c1Pixels).getD default

/-- The 256-bin histogram of the determinism example: count `5` at index
`2` and count `5` at index `4`. -/
def c2Hist : List ℕ :=
  [0, 0, 5, 0, 5] ++ List.replicate 251 0

/-- The statistics the source computes on `c2Hist`. -/
def c2Res : HistStats :=
  (calculateHistogramStatistics c2Hist).getD default

/-- A 6 × 1 image under the identity transform, used for the line-profile
endpoint example: pixel `x` has red channel `40·x` and full alpha. -/
def img6 : Img :=
  ⟨6, 1, fun x _ => ⟨(40 * x).toNat, 0, 0, 255⟩⟩

/-- Analyzer state displaying `img6` at `1:1` scale with zero offset. -/
def a6 : AnalyzerState :=
  ⟨some img6, 6, 1, 0, 0, false, false, 0, 0, none, none, ""⟩

/-- The line sample the source computes along `(0,0) – (5,0)` on `a6`. -/
def c7Vals : LineValues :=
  (pixelSamplerSample a6 (0, 0) (5, 0)).getD default

/-- The peak-detection example sequence of the spec. -/
def c5Seq : List ℚ :=
  [10, 12, 30, 11, 10, 40, 9]

/-- A 10 × 8 image displayed 1:1, for the region-computation witness. -/
def imgR : Img :=
  ⟨10, 8, fun _ _ => ⟨0, 0, 0, 255⟩⟩

/-- State displaying `imgR` at `1:1` scale, no offset. -/
def sR : AnalyzerState :=
  ⟨some imgR, 10, 8, 0, 0, false, false, 0, 0, none, none, ""⟩

/-- A display rectangle properly inside `imgR`. -/
def rectR : Rect :=
  ⟨2, 1, 5, 4⟩

/-- The region the source computes for `rectR` on `sR`. -/
def c6Reg : Region :=
  (calculateAnalysisRegion imgR rectR sR).getD default

/-- Quartile counterexample histogram: count `1` at index `0` and count
`3` at index `5`, so a quarter of the total is already reached at index
`0`. -/
def c8Hist : List ℕ :=
  [1, 0, 0, 0, 0, 3]

/-- Quartile witness histogram: count `2` at indices `1` and `3`. -/
def c8Hist2 : List ℕ :=
  [0, 2, 0, 2]

/-- A state with an analysis already in flight (`isAnalyzing = true`). -/
def sBusy : AnalyzerState :=
  ⟨some imgR, 10, 8, 0, 0, true, false, 0, 0, some rectR,
   some ⟨[1], [2], [3], [4]⟩, "busy"⟩

/-- The same state with the flag clear. -/
def sIdle : AnalyzerState :=
  ⟨some imgR, 10, 8, 0, 0, false, false, 0, 0, some rectR, none, ""⟩

/-- A state in the middle of a rectangle drag starting at `(1, 1)`. -/
def sDraw : AnalyzerState :=
  ⟨some imgR, 10, 8, 0, 0, false, true, 1, 1, none, none, ""⟩


/-- `medianGo` with its rational threshold test `total/2 ≤ cs` replaced by
the equivalent integer test `total ≤ 2·cs`; proved equal to `medianGo`
below and used to evaluate concrete examples. -/
def medianGoN (total : ℕ) : List ℕ → ℕ → ℕ → ℕ
  | [], _, _ => 0
  | c :: rest, i, cumSum =>
      let cs := cumSum + c
      if total ≤ 2 * cs then i else medianGoN total rest (i + 1) cs

/-- `quartileGo` with the rational threshold tests `total·1/4 ≤ cs` and
`total·3/4 ≤ cs` replaced by the equivalent integer tests `total ≤ 4·cs`
and `3·total ≤ 4·cs`; proved equal to `quartileGo` below. -/
def quartileGoN (total : ℕ) : List ℕ → ℕ → ℕ → ℕ → ℕ → ℕ × ℕ
  | [], _, _, q1, q3 => (q1, q3)
  | c :: rest, i, cumSum, q1, q3 =>
      let cs := cumSum + c
      let q1n := if q1 = 0 ∧ total ≤ 4 * cs then i else q1
      if 3 * total ≤ 4 * cs then (q1n, i)
      else quartileGoN total rest (i + 1) cs q1n q3

lemma analyzeStep_foldl_fst (pixels : List RGBA) :
    ∀ acc : List ℕ × PixelStatistics,
    (pixels.foldl analyzeStep acc).1 =
      acc.1 ++ (pixels.filter fun p => 0 < p.a).map pixelBrightness := by
  induction pixels with
  | nil => simp
  | cons p ps ih =>
      intro acc
      by_cases h : 0 < p.a
      · simp [List.foldl_cons, analyzeStep, h, ih, List.filter_cons]
      · simp [List.foldl_cons, analyzeStep, h, ih, List.filter_cons]

lemma foldl_add_sum {α : Type} (f : α → ℚ) (l : List α) :
    ∀ init : ℚ, l.foldl (fun (s : ℚ) (v : α) => s + f v) init = init + (l.map f).sum := by
  induction l with
  | nil => simp
  | cons v vs ih => intro init; simp [ih, add_assoc]

lemma foldl_cast_sum (l : List ℕ) :
    l.foldl (fun (s : ℚ) (v : ℕ) => s + (v : ℚ)) 0 = (l.map (fun (v : ℕ) => (v : ℚ))).sum := by
  simpa using foldl_add_sum (α := ℕ) (fun v => (v : ℚ)) l 0

lemma foldl_sq_sum (l : List ℕ) (m : ℚ) :
    l.foldl (fun (s : ℚ) (v : ℕ) => s + ((v : ℚ) - m) ^ 2) 0 =
      ((l.map (fun (v : ℕ) => (v : ℚ))).map (fun (b : ℚ) => (b - m) ^ 2)).sum := by
  rw [List.map_map]
  simpa [Function.comp_def] using foldl_add_sum (α := ℕ) (fun v => ((v : ℚ) - m) ^ 2) l 0

lemma snRatioE_of_stdDev_pos (d : SnData) (h : 0 < snStdDev d) :
    snRatioE d = (((d.mean : ℝ) / snStdDev d : ℝ) : EReal) := by
  have hv : 0 < d.variance := by exact_mod_cast Real.sqrt_pos.mp h
  simp [snRatioE, hv]

lemma snRatioE_of_stdDev_zero (d : SnData) (h : snStdDev d = 0) :
    snRatioE d = ⊤ := by
  have hv : ¬ 0 < d.variance := by
    intro hv
    have hpos : (0 : ℝ) < snStdDev d := Real.sqrt_pos.mpr (by exact_mod_cast hv)
    rw [h] at hpos
    exact lt_irrefl 0 hpos
  simp [snRatioE, hv]

/-- C1: `analyzePixelData` skips every pixel with alpha `0`, returns null
exactly when no pixel has alpha `> 0`, and otherwise reports `pixelCount
= n`, `mean = Σb/n` and `variance = Σ(b-mean)²/n` over the `n`
non-transparent pixels' brightness values, with `stdDev = √variance` and
`snRatio = mean/stdDev` when `stdDev > 0` and `+∞` when `stdDev = 0`. -/
theorem analyzePixelData_matches_claim (pixels : List RGBA) :
    (analyzePixelData pixels = none ↔ ∀ p ∈ pixels, p.a = 0) ∧
    (∀ res, analyzePixelData pixels = some res → analyzeResultSpec pixels res) := by
  have hfst : (pixels.foldl analyzeStep ([], initialStats)).1 =
      (pixels.filter fun p => 0 < p.a).map pixelBrightness := by
    simpa using analyzeStep_foldl_fst pixels ([], initialStats)
  by_cases hlen : pixels.length = 0
  · rcases List.length_eq_zero.mp hlen with rfl
    have hnone : analyzePixelData ([] : List RGBA) = none := rfl
    refine ⟨iff_of_true hnone ?_, fun res hres => ?_⟩
    · intro p hp
      cases hp
    · rw [hnone] at hres
      cases hres
  · by_cases hval : (pixels.filter fun p => 0 < p.a) = []
    · have hnone : analyzePixelData pixels = none := by
        simp [analyzePixelData, if_neg hlen, hfst, hval]
      refine ⟨iff_of_true hnone ?_, fun res hres => ?_⟩
      · intro p hp
        have hnp := List.filter_eq_nil_iff.mp hval p hp
        simpa using hnp
      · rw [hnone] at hres
        cases hres
    · have hbne : ((pixels.filter fun p => 0 < p.a).map pixelBrightness).length ≠ 0 := by
        simp only [List.length_map, ne_eq, List.length_eq_zero]
        exact hval
      have hsome : analyzePixelData pixels =
          some ⟨(pixels.filter fun p => 0 < p.a).map pixelBrightness,
                (pixels.foldl analyzeStep ([], initialStats)).2,
                ⟨((pixels.filter fun p => 0 < p.a).map pixelBrightness).foldl
                    (fun (s : ℚ) (v : ℕ) => s + (v : ℚ)) 0 /
                  (((pixels.filter fun p => 0 < p.a).map pixelBrightness).length : ℚ),
                 ((pixels.filter fun p => 0 < p.a).map pixelBrightness).foldl
                    (fun (s : ℚ) (v : ℕ) => s + ((v : ℚ) -
                      ((pixels.filter fun p => 0 < p.a).map pixelBrightness).foldl
                          (fun (s : ℚ) (v : ℕ) => s + (v : ℚ)) 0 /
                        (((pixels.filter fun p => 0 < p.a).map pixelBrightness).length : ℚ)) ^ 2) 0 /
                  (((pixels.filter fun p => 0 < p.a).map pixelBrightness).length : ℚ),
                 ((pixels.filter fun p => 0 < p.a).map pixelBrightness).length⟩⟩ := by
        simp only [analyzePixelData, if_neg hlen, hfst, if_neg hbne]
      refine ⟨?_, fun res hres => ?_⟩
      · rw [hsome]
        refine iff_of_false (by simp) ?_
        intro hall
        apply hval
        apply List.filter_eq_nil_iff.mpr
        intro p hp
        simp [hall p hp]
      · rw [hsome, Option.some.injEq] at hres
        subst hres
        unfold analyzeResultSpec
        have hmm : ((pixels.filter fun p => 0 < p.a).map pixelBrightness).foldl
              (fun (s : ℚ) (v : ℕ) => s + (v : ℚ)) 0 /
            (((pixels.filter fun p => 0 < p.a).map pixelBrightness).length : ℚ) =
            ((pixels.filter fun p => 0 < p.a).map
              (fun p => (pixelBrightness p : ℚ))).sum /
            (((pixels.filter fun p => 0 < p.a).length : ℚ)) := by
          rw [foldl_cast_sum, List.map_map, List.length_map]
          rfl
        refine ⟨by simp, ?_, ?_, rfl, ?_, ?_⟩
        · exact hmm
        · simp only
          rw [foldl_sq_sum, List.length_map]
          simp [List.map_map, Function.comp_def]
        · intro hpos
          exact snRatioE_of_stdDev_pos _ hpos
        · intro hzero
          exact snRatioE_of_stdDev_zero _ hzero

/-- Witness for C1: the claim instantiated on the concrete buffer
`c1Pixels`, whose analysis succeeds with result `c1Res`. -/
theorem analyzePixelData_matches_claim_witness :
    analyzePixelData c1Pixels = some c1Res ∧ analyzeResultSpec c1Pixels c1Res :=
  ⟨rfl, (analyzePixelData_matches_claim c1Pixels).2 c1Res rfl⟩

lemma medianGo_eq (total : ℕ) (rest : List ℕ) : ∀ i cumSum : ℕ,
    medianGo total rest i cumSum =
      (match firstReach ((total : ℚ) / 2) cumSum rest with
       | some k => i + k
       | none => 0) := by
  induction rest with
  | nil => intro i c; rfl
  | cons c rest ih =>
      intro i cum
      by_cases hc : (total : ℚ) / 2 ≤ ((cum + c : ℕ) : ℚ)
      · simp only [medianGo, firstReach, if_pos hc]
        simp
      · simp only [medianGo, firstReach, if_neg hc, ih (i + 1) (cum + c)]
        cases hfr : firstReach ((total : ℚ) / 2) (cum + c) rest with
        | none => simp
        | some k =>
            simp only [Option.map_some']
            ring

lemma firstReach_some (t : ℚ) (l : List ℕ) : ∀ cum k : ℕ,
    firstReach t cum l = some k →
    k < l.length ∧ t ≤ ((cum + (l.take (k + 1)).sum : ℕ) : ℚ) ∧
      ∀ j < k, ((cum + (l.take (j + 1)).sum : ℕ) : ℚ) < t := by
  induction l with
  | nil => intro cum k h; cases h
  | cons c rest ih =>
      intro cum k h
      by_cases hc : t ≤ ((cum + c : ℕ) : ℚ)
      · unfold firstReach at h
        rw [if_pos hc] at h
        cases h
        refine ⟨by simp, by simpa using hc, ?_⟩
        intro j hj
        omega
      · unfold firstReach at h
        rw [if_neg hc] at h
        cases hfr : firstReach t (cum + c) rest with
        | none => rw [hfr] at h; cases h
        | some k0 =>
            rw [hfr] at h
            simp only [Option.map_some'] at h
            obtain ⟨rfl⟩ : k0 + 1 = k := by simpa using h
            obtain ⟨h1, h2, h3⟩ := ih (cum + c) k0 hfr
            refine ⟨by simpa using h1, ?_, ?_⟩
            · simpa [Nat.add_assoc] using h2
            · intro j hj
              cases j with
              | zero =>
                  simpa using lt_of_not_le hc
              | succ j0 =>
                  have := h3 j0 (by omega)
                  simpa [Nat.add_assoc] using this

lemma firstReach_none (t : ℚ) (l : List ℕ) : ∀ cum : ℕ,
    firstReach t cum l = none →
    ∀ j < l.length, ((cum + (l.take (j + 1)).sum : ℕ) : ℚ) < t := by
  induction l with
  | nil => intro cum _ j hj; cases hj
  | cons c rest ih =>
      intro cum h j hj
      by_cases hc : t ≤ ((cum + c : ℕ) : ℚ)
      · unfold firstReach at h
        rw [if_pos hc] at h
        cases h
      · unfold firstReach at h
        rw [if_neg hc] at h
        cases hfr : firstReach t (cum + c) rest with
        | some k0 => rw [hfr] at h; cases h
        | none =>
            cases j with
            | zero => simpa using lt_of_not_le hc
            | succ j0 =>
                have := ih (cum + c) hfr j0 (by simpa using hj)
                simpa [Nat.add_assoc] using this

lemma foldl_max_le_init (l : List ℕ) : ∀ a : ℕ, a ≤ l.foldl max a := by
  induction l with
  | nil => intro a; exact le_refl a
  | cons c rest ih =>
      intro a
      exact le_trans (Nat.le_max_left a c) (ih (max a c))

lemma foldl_max_le_mem (l : List ℕ) : ∀ a x : ℕ, x ∈ l → x ≤ l.foldl max a := by
  induction l with
  | nil => intro a x hx; cases hx
  | cons c rest ih =>
      intro a x hx
      rcases List.mem_cons.mp hx with rfl | hx
      · exact le_trans (Nat.le_max_right a x) (foldl_max_le_init rest (max a x))
      · exact ih (max a c) x hx

lemma foldl_max_mem (l : List ℕ) : ∀ a : ℕ, l.foldl max a = a ∨ l.foldl max a ∈ l := by
  induction l with
  | nil => intro a; exact Or.inl rfl
  | cons c rest ih =>
      intro a
      rcases ih (max a c) with hm | hm
      · rcases Nat.le_total a c with hac | hac
        · right
          rw [List.foldl_cons, hm, Nat.max_eq_right hac]
          exact List.mem_cons_self c rest
        · left
          rw [List.foldl_cons, hm, Nat.max_eq_left hac]
      · right
        exact List.mem_cons_of_mem c hm

lemma histMax_mem (h : List ℕ) (hne : h ≠ []) : histMax h ∈ h := by
  rcases foldl_max_mem h 0 with h0 | hm
  · cases h with
    | nil => exact absurd rfl hne
    | cons c rest =>
        have hc : c ≤ histMax (c :: rest) :=
          foldl_max_le_mem _ _ _ (List.mem_cons_self c rest)
        rw [histMax, h0] at hc
        have : c = 0 := Nat.le_zero.mp hc
        rw [histMax, h0, ← this]
        exact List.mem_cons_self c rest
  · exact hm

lemma getD_ne_of_lt_indexOf (l : List ℕ) (a : ℕ) : ∀ j, j < l.indexOf a →
    l.getD j 0 ≠ a := by
  induction l with
  | nil => intro j hj; simp at hj
  | cons c rest ih =>
      intro j hj
      by_cases hca : c = a
      · rw [List.indexOf_cons_eq rest hca] at hj
        omega
      · rw [List.indexOf_cons_ne rest hca] at hj
        cases j with
        | zero => simpa using hca
        | succ j0 => exact ih j0 (by omega)

lemma medianGo_eq_medianGoN (total : ℕ) (l : List ℕ) : ∀ i cumSum : ℕ,
    medianGo total l i cumSum = medianGoN total l i cumSum := by
  induction l with
  | nil => intro i c; rfl
  | cons c rest ih =>
      intro i cum
      have hcond : ((total : ℚ) / 2 ≤ ((cum + c : ℕ) : ℚ)) ↔ total ≤ 2 * (cum + c) := by
        rw [div_le_iff₀ (by norm_num : (0 : ℚ) < 2)]
        constructor
        · intro hq
          have hq2 : (total : ℚ) ≤ ((2 * (cum + c) : ℕ) : ℚ) := by
            calc (total : ℚ) ≤ ((cum + c : ℕ) : ℚ) * 2 := hq
              _ = ((2 * (cum + c) : ℕ) : ℚ) := by push_cast; ring
          exact_mod_cast hq2
        · intro hn
          have hq2 : (total : ℚ) ≤ ((2 * (cum + c) : ℕ) : ℚ) := by exact_mod_cast hn
          calc (total : ℚ) ≤ ((2 * (cum + c) : ℕ) : ℚ) := hq2
            _ = ((cum + c : ℕ) : ℚ) * 2 := by push_cast; ring
      simp only [medianGo, medianGoN]
      rw [if_congr hcond rfl rfl]
      by_cases hn : total ≤ 2 * (cum + c)
      · rw [if_pos hn, if_pos hn]
      · rw [if_neg hn, if_neg hn, ih]

lemma quartile_cond_q1 (total cs : ℕ) :
    ((total : ℚ) * (1 / 4) ≤ (cs : ℚ)) ↔ total ≤ 4 * cs := by
  rw [show (total : ℚ) * (1 / 4) = (total : ℚ) / 4 by ring,
    div_le_iff₀ (by norm_num : (0 : ℚ) < 4)]
  constructor
  · intro hq
    have hq2 : (total : ℚ) ≤ ((4 * cs : ℕ) : ℚ) := by
      calc (total : ℚ) ≤ (cs : ℚ) * 4 := hq
        _ = ((4 * cs : ℕ) : ℚ) := by push_cast; ring
    exact_mod_cast hq2
  · intro hn
    have hq2 : (total : ℚ) ≤ ((4 * cs : ℕ) : ℚ) := by exact_mod_cast hn
    calc (total : ℚ) ≤ ((4 * cs : ℕ) : ℚ) := hq2
      _ = (cs : ℚ) * 4 := by push_cast; ring

lemma quartile_cond_q3 (total cs : ℕ) :
    ((total : ℚ) * (3 / 4) ≤ (cs : ℚ)) ↔ 3 * total ≤ 4 * cs := by
  rw [show (total : ℚ) * (3 / 4) = ((3 * total : ℕ) : ℚ) / 4 by push_cast; ring,
    div_le_iff₀ (by norm_num : (0 : ℚ) < 4)]
  constructor
  · intro hq
    have hq2 : ((3 * total : ℕ) : ℚ) ≤ ((4 * cs : ℕ) : ℚ) := by
      calc ((3 * total : ℕ) : ℚ) ≤ (cs : ℚ) * 4 := hq
        _ = ((4 * cs : ℕ) : ℚ) := by push_cast; ring
    exact_mod_cast hq2
  · intro hn
    have hq2 : ((3 * total : ℕ) : ℚ) ≤ ((4 * cs : ℕ) : ℚ) := by exact_mod_cast hn
    calc ((3 * total : ℕ) : ℚ) ≤ ((4 * cs : ℕ) : ℚ) := hq2
      _ = (cs : ℚ) * 4 := by push_cast; ring

lemma quartileGo_eq_quartileGoN (total : ℕ) (l : List ℕ) :
    ∀ i cumSum q1 q3 : ℕ,
    quartileGo ((total : ℚ) * (1 / 4)) ((total : ℚ) * (3 / 4)) l i cumSum q1 q3 =
      quartileGoN total l i cumSum q1 q3 := by
  induction l with
  | nil => intro i c q1 q3; rfl
  | cons c rest ih =>
      intro i cum q1 q3
      simp only [quartileGo, quartileGoN]
      rw [if_congr (and_congr Iff.rfl (quartile_cond_q1 total (cum + c))) rfl rfl,
        if_congr (quartile_cond_q3 total (cum + c)) rfl rfl]
      by_cases h3 : 3 * total ≤ 4 * (cum + c)
      · rw [if_pos h3, if_pos h3]
      · rw [if_neg h3, if_neg h3, ih]

lemma c2Hist_sum : c2Hist.sum = 10 := by
  rw [c2Hist, List.sum_append, List.sum_replicate]
  simp

set_option maxRecDepth 40000 in
/-- C2: `calculateHistogramStatistics` returns null exactly when the total
count is `0`; otherwise the median is the smallest index whose running
cumulative count reaches `total/2`, the mode is the first index attaining
the maximum count, and the mean is `Σ(i·count[i])/total`; the 256-bin
histogram with count `5` at index `2` and count `5` at index `4` yields
median `2` and mode `2`. -/
theorem calculateHistogramStatistics_matches_claim :
    (∀ h : List ℕ, calculateHistogramStatistics h = none ↔ h.sum = 0) ∧
    (∀ (h : List ℕ) (st : HistStats),
      calculateHistogramStatistics h = some st → histStatsSpec h st) ∧
    calculateHistogramStatistics c2Hist = some c2Res ∧
    c2Res.median = 2 ∧ c2Res.mode = 2 := by
  have hnone : ∀ h : List ℕ, calculateHistogramStatistics h = none ↔ h.sum = 0 := by
    intro h
    by_cases h0 : h.sum = 0
    · simp [calculateHistogramStatistics, h0]
    · simp [calculateHistogramStatistics, h0]
  refine ⟨hnone, ?_, ?_, ?_, ?_⟩
  · intro h st hst
    by_cases h0 : h.sum = 0
    · rw [(hnone h).mpr h0] at hst
      cases hst
    · rw [calculateHistogramStatistics, if_neg h0, Option.some.injEq] at hst
      subst hst
      have hne : h ≠ [] := by
        intro hnil
        exact h0 (by simp [hnil])
      have hmem : histMax h ∈ h := histMax_mem h hne
      have hmodelt : histMode h < h.length := List.indexOf_lt_length.mpr hmem
      have hmodeval : h.getD (histMode h) 0 = histMax h := by
        rw [List.getD_eq_getElem h 0 hmodelt]
        exact List.getElem_indexOf hmodelt
      -- median characterization
      have hfr : ∀ k, firstReach ((h.sum : ℚ) / 2) 0 h = some k →
          histMedian h = k := by
        intro k hk
        rw [histMedian, medianGo_eq h.sum h 0 0, hk]
        simp
      rcases hkex : firstReach ((h.sum : ℚ) / 2) 0 h with _ | k
      · exfalso
        have hlt := firstReach_none ((h.sum : ℚ) / 2) h 0 hkex (h.length - 1)
          (by
            have : 0 < h.length := List.length_pos.mpr hne
            omega)
        rw [show h.length - 1 + 1 = h.length by
            have : 0 < h.length := List.length_pos.mpr hne
            omega,
          List.take_length] at hlt
        have hsumpos : 0 < (h.sum : ℚ) := by
          exact_mod_cast Nat.pos_of_ne_zero h0
        simp only [Nat.zero_add] at hlt
        linarith
      · obtain ⟨hklen, hkge, hklt⟩ := firstReach_some ((h.sum : ℚ) / 2) h 0 k hkex
        have hmed : histMedian h = k := hfr k hkex
        refine ⟨rfl, ?_, ?_, ?_, hmodelt, ?_, ?_, ?_⟩
        · simpa [hmed] using hklen
        · simp only [hmed, cumCount]
          simpa using hkge
        · intro j hj
          rw [hmed] at hj
          have := hklt j hj
          simpa [cumCount] using this
        · intro j hj
          rw [List.getD_eq_getElem h 0 hj, hmodeval]
          exact foldl_max_le_mem h 0 _ (List.getElem_mem _)
        · intro j hj
          have hjlen : j < h.length := lt_trans hj hmodelt
          have hle : h.getD j 0 ≤ h.getD (histMode h) 0 := by
            rw [List.getD_eq_getElem h 0 hjlen, hmodeval]
            exact foldl_max_le_mem h 0 _ (List.getElem_mem _)
          have hne2 : h.getD j 0 ≠ h.getD (histMode h) 0 := by
            rw [hmodeval]
            exact getD_ne_of_lt_indexOf h (histMax h) j hj
          exact lt_of_le_of_ne hle hne2
        · simp only [histMean, histWeightedSum]
          rw [foldl_add_sum (α := ℕ × ℕ) (fun p => (p.1 : ℚ) * (p.2 : ℚ)) h.enum 0]
          simp
  · rw [calculateHistogramStatistics, if_neg (by rw [c2Hist_sum]; omega)]
    rfl
  · show c2Res.median = 2
    have : c2Res.median = histMedian c2Hist := by
      rw [show c2Res = (calculateHistogramStatistics c2Hist).getD default from rfl,
        calculateHistogramStatistics, if_neg (by rw [c2Hist_sum]; omega)]
      rfl
    rw [this, histMedian, medianGo_eq_medianGoN, c2Hist_sum]
    decide
  · show c2Res.mode = 2
    have : c2Res.mode = histMode c2Hist := by
      rw [show c2Res = (calculateHistogramStatistics c2Hist).getD default from rfl,
        calculateHistogramStatistics, if_neg (by rw [c2Hist_sum]; omega)]
      rfl
    rw [this]
    decide

set_option maxRecDepth 40000 in
/-- Witness for C2: the non-null branch of the claim instantiated on the
concrete histogram `c2Hist`, whose statistics are `c2Res`. -/
theorem calculateHistogramStatistics_matches_claim_witness :
    calculateHistogramStatistics c2Hist = some c2Res ∧ histStatsSpec c2Hist c2Res := by
  have hsome : calculateHistogramStatistics c2Hist = some c2Res := by
    rw [calculateHistogramStatistics, if_neg (by rw [c2Hist_sum]; omega)]
    rfl
  exact ⟨hsome, calculateHistogramStatistics_matches_claim.2.1 c2Hist c2Res hsome⟩

/-- C5: `findPeaks` returns `{i, sequence[i]}` exactly for the interior
indices `1 ≤ i ≤ len-2` where `sequence[i]` strictly exceeds both
neighbours by more than the threshold, in increasing index order;
endpoints are never candidates; `[10,12,30,11,10,40,9]` with threshold `5`
yields exactly the peaks `(2,30)` and `(5,40)`, and the monotonic
`[10,11,12,13,14]` yields none. -/
theorem findPeaks_matches_claim :
    (∀ (values : List ℚ) (threshold : ℚ) (p : Peak),
      p ∈ findPeaks values threshold ↔
        1 ≤ p.index ∧ p.index + 1 < values.length ∧
        values.getD (p.index - 1) 0 < values.getD p.index 0 ∧
        values.getD (p.index + 1) 0 < values.getD p.index 0 ∧
        threshold < values.getD p.index 0 - values.getD (p.index - 1) 0 ∧
        threshold < values.getD p.index 0 - values.getD (p.index + 1) 0 ∧
        p.value = values.getD p.index 0) ∧
    (∀ (values : List ℚ) (threshold : ℚ),
      (findPeaks values threshold).Pairwise (fun p q => p.index < q.index)) ∧
    (∀ (values : List ℚ) (threshold : ℚ) (p : Peak),
      p ∈ findPeaks values threshold →
        p.index ≠ 0 ∧ p.index ≠ values.length - 1) ∧
    findPeaksDefault c5Seq = [⟨2, 30⟩, ⟨5, 40⟩] ∧
    findPeaksDefault [10, 11, 12, 13, 14] = [] := by
  have hmem : ∀ (values : List ℚ) (threshold : ℚ) (p : Peak),
      p ∈ findPeaks values threshold ↔
        1 ≤ p.index ∧ p.index + 1 < values.length ∧
        values.getD (p.index - 1) 0 < values.getD p.index 0 ∧
        values.getD (p.index + 1) 0 < values.getD p.index 0 ∧
        threshold < values.getD p.index 0 - values.getD (p.index - 1) 0 ∧
        threshold < values.getD p.index 0 - values.getD (p.index + 1) 0 ∧
        p.value = values.getD p.index 0 := by
    intro values threshold p
    constructor
    · intro hp
      obtain ⟨i, hi, hfi⟩ := List.mem_filterMap.mp hp
      by_cases hint : 1 ≤ i ∧ i + 1 < values.length
      · rw [if_pos hint] at hfi
        by_cases hcond : values.getD (i - 1) 0 < values.getD i 0 ∧
            values.getD (i + 1) 0 < values.getD i 0 ∧
            threshold < values.getD i 0 - values.getD (i - 1) 0 ∧
            threshold < values.getD i 0 - values.getD (i + 1) 0
        · rw [if_pos hcond] at hfi
          cases hfi
          exact ⟨hint.1, hint.2, hcond.1, hcond.2.1, hcond.2.2.1, hcond.2.2.2, rfl⟩
        · rw [if_neg hcond] at hfi
          cases hfi
      · rw [if_neg hint] at hfi
        cases hfi
    · rintro ⟨h1, h2, h3, h4, h5, h6, hv⟩
      apply List.mem_filterMap.mpr
      refine ⟨p.index, List.mem_range.mpr (by omega), ?_⟩
      rw [if_pos ⟨h1, h2⟩, if_pos ⟨h3, h4, h5, h6⟩]
      obtain ⟨pi, pv⟩ := p
      simp only at hv ⊢
      rw [hv]
  refine ⟨hmem, ?_, ?_, ?_, ?_⟩
  · intro values threshold
    apply List.pairwise_filterMap.mpr
    apply List.Pairwise.imp ?_ (List.pairwise_lt_range values.length)
    intro i j hij p hp q hq
    have hpi : p.index = i := by
      by_cases hint : 1 ≤ i ∧ i + 1 < values.length
      · rw [if_pos hint] at hp
        by_cases hcond : values.getD (i - 1) 0 < values.getD i 0 ∧
            values.getD (i + 1) 0 < values.getD i 0 ∧
            threshold < values.getD i 0 - values.getD (i - 1) 0 ∧
            threshold < values.getD i 0 - values.getD (i + 1) 0
        · rw [if_pos hcond] at hp
          cases hp
          rfl
        · rw [if_neg hcond] at hp
          cases hp
      · rw [if_neg hint] at hp
        cases hp
    have hqj : q.index = j := by
      by_cases hint : 1 ≤ j ∧ j + 1 < values.length
      · rw [if_pos hint] at hq
        by_cases hcond : values.getD (j - 1) 0 < values.getD j 0 ∧
            values.getD (j + 1) 0 < values.getD j 0 ∧
            threshold < values.getD j 0 - values.getD (j - 1) 0 ∧
            threshold < values.getD j 0 - values.getD (j + 1) 0
        · rw [if_pos hcond] at hq
          cases hq
          rfl
        · rw [if_neg hcond] at hq
          cases hq
      · rw [if_neg hint] at hq
        cases hq
    rw [hpi, hqj]
    exact hij
  · intro values threshold p hp
    have := (hmem values threshold p).mp hp
    omega
  · show findPeaks c5Seq 5 = [⟨2, 30⟩, ⟨5, 40⟩]
    rw [findPeaks]
    norm_num [c5Seq, List.range_succ, List.filterMap_cons,
      List.getElem?_cons_zero, List.getElem?_cons_succ]
  · show findPeaks [10, 11, 12, 13, 14] 5 = []
    rw [findPeaks]
    norm_num [List.range_succ, List.filterMap_cons,
      List.getElem?_cons_zero, List.getElem?_cons_succ]

/-- Witness for C5: the peak `(2, 30)` detected in the example sequence is
indeed not an endpoint. -/
theorem findPeaks_matches_claim_witness :
    Peak.mk 2 30 ∈ findPeaks c5Seq 5 ∧
    (Peak.mk 2 30).index ≠ 0 ∧ (Peak.mk 2 30).index ≠ c5Seq.length - 1 := by
  have hm : Peak.mk 2 30 ∈ findPeaks c5Seq 5 := by
    have hex := findPeaks_matches_claim.2.2.2.1
    rw [findPeaksDefault] at hex
    rw [hex]
    exact List.mem_cons_self _ _
  exact ⟨hm, findPeaks_matches_claim.2.2.1 c5Seq 5 ⟨2, 30⟩ hm⟩

/-- C9: a `performImageAnalysis` call made while `isAnalyzing` is set
returns immediately with the state (flag, rectangle, histogram data and
all) unchanged, and every non-rejected call — success, early return, or
caught failure — has the flag clear when control returns. -/
theorem performImageAnalysis_reentrancy_claim :
    (∀ (s : AnalyzerState) (extractOk displayOk : Bool),
      s.isAnalyzing = true → performImageAnalysis s extractOk displayOk = s) ∧
    (∀ (s : AnalyzerState) (extractOk displayOk : Bool),
      s.isAnalyzing = false →
        (performImageAnalysis s extractOk displayOk).isAnalyzing = false) := by
  constructor
  · intro s eo dk h
    simp [performImageAnalysis, h]
  · intro s eo dk h
    simp [performImageAnalysis, h]

/-- Witness for C9: a busy state is returned untouched, and an idle state
comes back with the flag still clear. -/
theorem performImageAnalysis_reentrancy_claim_witness :
    sBusy.isAnalyzing = true ∧ performImageAnalysis sBusy true true = sBusy ∧
    sIdle.isAnalyzing = false ∧
    (performImageAnalysis sIdle true true).isAnalyzing = false :=
  ⟨rfl, performImageAnalysis_reentrancy_claim.1 sBusy true true rfl,
   rfl, performImageAnalysis_reentrancy_claim.2 sIdle true true rfl⟩

/-- C10: `endDrawing` schedules a region analysis exactly when a drag was
in progress on a loaded image and the selection, clamped to the displayed
image bounds, has display-space width and height strictly greater than
`3`; otherwise `currentRect` is left unchanged and no analysis is
triggered. -/
theorem endDrawing_min_size_claim :
    (∀ (s : AnalyzerState) (endX endY : ℚ),
      (endDrawing s endX endY).2 = true ↔
        s.isDrawing = true ∧ s.currentImage.isSome = true ∧
        3 < (calculateClampedRectangle s s.startX s.startY endX endY).width ∧
        3 < (calculateClampedRectangle s s.startX s.startY endX endY).height) ∧
    (∀ (s : AnalyzerState) (endX endY : ℚ),
      (endDrawing s endX endY).2 = false →
        (endDrawing s endX endY).1.currentRect = s.currentRect) := by
  constructor
  · intro s endX endY
    cases hd : s.isDrawing with
    | false => simp [endDrawing, hd]
    | true =>
        cases himg : s.currentImage with
        | none => simp [endDrawing, hd, himg]
        | some img =>
            by_cases hc : 3 < (calculateClampedRectangle s s.startX s.startY endX endY).width ∧
                3 < (calculateClampedRectangle s s.startX s.startY endX endY).height
            · simp [endDrawing, hd, himg, hc]
            · simp only [endDrawing, hd, himg, if_neg hc]
              refine iff_of_false (by simp) ?_
              rintro ⟨-, -, h3, h4⟩
              exact hc ⟨h3, h4⟩
  · intro s endX endY htrig
    cases hd : s.isDrawing with
    | false => simp [endDrawing, hd]
    | true =>
        cases himg : s.currentImage with
        | none => simp [endDrawing, hd, himg]
        | some img =>
            by_cases hc : 3 < (calculateClampedRectangle s s.startX s.startY endX endY).width ∧
                3 < (calculateClampedRectangle s s.startX s.startY endX endY).height
            · rw [endDrawing] at htrig
              simp only [hd, himg, if_pos hc] at htrig
              cases htrig
            · simp [endDrawing, hd, himg, if_neg hc]

/-- Witness for C10: ending the drag of `sDraw` at `(2, 2)` produces a
`1 × 1` display selection, which is discarded with `currentRect`
untouched. -/
theorem endDrawing_min_size_claim_witness :
    (endDrawing sDraw 2 2).2 = false ∧
    (endDrawing sDraw 2 2).1.currentRect = sDraw.currentRect := by
  have hf : (endDrawing sDraw 2 2).2 = false := by
    norm_num [endDrawing, sDraw, calculateClampedRectangle, imgR, min_def, max_def]
  exact ⟨hf, endDrawing_min_size_claim.2 sDraw 2 2 hf⟩

/-- C6: `calculateAnalysisRegion` rounds the scaled rectangle into source
space, clamps the start corner to `[0, dim-1]` and the end corner to
`[0, dim]` per axis, sets `width = end - start` (height likewise), returns
null exactly when either is `≤ 0`, and every non-null region satisfies
`0 ≤ x`, `0 ≤ y`, `x + width ≤ image.width`, `y + height ≤ image.height`,
`width > 0`, `height > 0`. -/
theorem calculateAnalysisRegion_matches_claim
    (img : Img) (rect : Rect) (s : AnalyzerState)
    (hdw : 0 < s.displayedWidth) (hdh : 0 < s.displayedHeight) :
    (calculateAnalysisRegion img rect s = none ↔
      finalWidth img rect s ≤ 0 ∨ finalHeight img rect s ≤ 0) ∧
    (∀ reg, calculateAnalysisRegion img rect s = some reg →
      regionSpec img rect s reg) := by
  constructor
  · by_cases hcond : finalWidth img rect s ≤ 0 ∨ finalHeight img rect s ≤ 0
    · simp [calculateAnalysisRegion, hcond]
    · simp [calculateAnalysisRegion, hcond]
  · intro reg hreg
    by_cases hcond : finalWidth img rect s ≤ 0 ∨ finalHeight img rect s ≤ 0
    · rw [calculateAnalysisRegion, if_pos hcond] at hreg
      cases hreg
    · rw [calculateAnalysisRegion, if_neg hcond, Option.some.injEq] at hreg
      subst hreg
      push_neg at hcond
      obtain ⟨hw, hh⟩ := hcond
      refine ⟨rfl, rfl, rfl, rfl, ?_, ?_, ?_, ?_, hw, hh⟩
      · exact le_max_left 0 _
      · exact le_max_left 0 _
      · show clampedStartX img rect s + finalWidth img rect s ≤ (img.width : ℤ)
        unfold finalWidth clampedEndX
        have h0 : (0 : ℤ) ≤ (img.width : ℤ) := Int.natCast_nonneg _
        omega
      · show clampedStartY img rect s + finalHeight img rect s ≤ (img.height : ℤ)
        unfold finalHeight clampedEndY
        have h0 : (0 : ℤ) ≤ (img.height : ℤ) := Int.natCast_nonneg _
        omega

/-- Witness for C6: a `5 × 4` display rectangle at `(2, 1)` on a `10 × 8`
image shown 1:1 produces exactly the source region `(2, 1, 5, 4)`, which
satisfies the invariant. -/
theorem calculateAnalysisRegion_matches_claim_witness :
    0 < sR.displayedWidth ∧ 0 < sR.displayedHeight ∧
    calculateAnalysisRegion imgR rectR sR = some ⟨2, 1, 5, 4⟩ ∧
    regionSpec imgR rectR sR ⟨2, 1, 5, 4⟩ := by
  have hsx : rectStartX imgR rectR sR = 2 := by
    rw [rectStartX, regionScaleX]
    norm_num [imgR, rectR, sR, round_eq]
  have hsy : rectStartY imgR rectR sR = 1 := by
    rw [rectStartY, regionScaleY]
    norm_num [imgR, rectR, sR, round_eq]
  have hwx : rectWidthScaled imgR rectR sR = 5 := by
    rw [rectWidthScaled, regionScaleX]
    norm_num [imgR, rectR, sR, round_eq]
  have hwy : rectHeightScaled imgR rectR sR = 4 := by
    rw [rectHeightScaled, regionScaleY]
    norm_num [imgR, rectR, sR, round_eq]
  have hcsx : clampedStartX imgR rectR sR = 2 := by
    rw [clampedStartX, hsx]
    norm_num [imgR]
  have hcsy : clampedStartY imgR rectR sR = 1 := by
    rw [clampedStartY, hsy]
    norm_num [imgR]
  have hcex : clampedEndX imgR rectR sR = 7 := by
    rw [clampedEndX, hsx, hwx]
    norm_num [imgR]
  have hcey : clampedEndY imgR rectR sR = 5 := by
    rw [clampedEndY, hsy, hwy]
    norm_num [imgR]
  have hfw : finalWidth imgR rectR sR = 5 := by
    rw [finalWidth, hcex, hcsx]
    decide
  have hfh : finalHeight imgR rectR sR = 4 := by
    rw [finalHeight, hcey, hcsy]
    decide
  have hsome : calculateAnalysisRegion imgR rectR sR = some ⟨2, 1, 5, 4⟩ := by
    rw [calculateAnalysisRegion, if_neg (by rw [hfw, hfh]; omega), hcsx, hcsy, hfw, hfh]
  have hdw : 0 < sR.displayedWidth := by norm_num [sR]
  have hdh : 0 < sR.displayedHeight := by norm_num [sR]
  exact ⟨hdw, hdh, hsome,
    (calculateAnalysisRegion_matches_claim imgR rectR sR hdw hdh).2 ⟨2, 1, 5, 4⟩ hsome⟩

/-- C3 counterexample: on a 20 × 20 image displayed at 10 × 10 (scaleX =
scaleY = 2, zero offset), the display point `displayedWidth - 1 = 9` maps
to source x `18 = width - 2`, not `width - 1 = 19` as the claim states. -/
theorem displayToOriginalCoords_claim_counterexample :
    displayToOriginalCoords (mkView 20 20 10 10 0 0) 9 0 = some (18, 0) ∧
    (18 : ℤ) ≠ (20 : ℤ) - 1 := by
  constructor
  · simp only [displayToOriginalCoords, mkView, imgV]
    norm_num
  · decide

lemma displayToOriginalCoords_none_iff (s : AnalyzerState) (img : Img)
    (x y : ℚ) (himg : s.currentImage = some img) :
    displayToOriginalCoords s x y = none ↔
      ¬(0 ≤ x - s.imageOffsetX ∧ x - s.imageOffsetX < s.displayedWidth ∧
        0 ≤ y - s.imageOffsetY ∧ y - s.imageOffsetY < s.displayedHeight) := by
  simp only [displayToOriginalCoords, himg]
  by_cases hz : s.displayedWidth = 0 ∨ s.displayedHeight = 0
  · rw [if_pos hz]
    refine iff_of_true rfl ?_
    rintro ⟨h1, h2, h3, h4⟩
    rcases hz with hz | hz
    · rw [hz] at h2
      linarith
    · rw [hz] at h4
      linarith
  · rw [if_neg hz]
    by_cases hout : x - s.imageOffsetX < 0 ∨ s.displayedWidth ≤ x - s.imageOffsetX ∨
        y - s.imageOffsetY < 0 ∨ s.displayedHeight ≤ y - s.imageOffsetY
    · rw [if_pos hout]
      refine iff_of_true rfl ?_
      rintro ⟨h1, h2, h3, h4⟩
      rcases hout with h | h | h | h
      · linarith
      · linarith
      · linarith
      · linarith
    · rw [if_neg hout]
      push_neg at hout
      exact iff_of_false (by simp)
        (not_not_intro ⟨hout.1, hout.2.1, hout.2.2.1, hout.2.2.2⟩)

lemma displayToOriginalCoords_some (s : AnalyzerState) (img : Img)
    (x y : ℚ) (p : ℤ × ℤ) (himg : s.currentImage = some img)
    (hp : displayToOriginalCoords s x y = some p) :
    p.1 = min ⌊(x - s.imageOffsetX) / s.displayedWidth * (img.width : ℚ)⌋
        ((img.width : ℤ) - 1) ∧
    p.2 = min ⌊(y - s.imageOffsetY) / s.displayedHeight * (img.height : ℚ)⌋
        ((img.height : ℤ) - 1) ∧
    p.1 < (img.width : ℤ) ∧ p.2 < (img.height : ℤ) := by
  simp only [displayToOriginalCoords, himg] at hp
  by_cases hz : s.displayedWidth = 0 ∨ s.displayedHeight = 0
  · rw [if_pos hz] at hp
    cases hp
  · rw [if_neg hz] at hp
    by_cases hout : x - s.imageOffsetX < 0 ∨ s.displayedWidth ≤ x - s.imageOffsetX ∨
        y - s.imageOffsetY < 0 ∨ s.displayedHeight ≤ y - s.imageOffsetY
    · rw [if_pos hout] at hp
      cases hp
    · rw [if_neg hout, Option.some.injEq] at hp
      subst hp
      refine ⟨rfl, rfl, ?_, ?_⟩
      · have h1 : min ⌊(x - s.imageOffsetX) / s.displayedWidth * (img.width : ℚ)⌋
            ((img.width : ℤ) - 1) ≤ (img.width : ℤ) - 1 := min_le_right _ _
        omega
      · have h1 : min ⌊(y - s.imageOffsetY) / s.displayedHeight * (img.height : ℚ)⌋
            ((img.height : ℤ) - 1) ≤ (img.height : ℤ) - 1 := min_le_right _ _
        omega

lemma roundTrip_scale2 (dw dh : ℕ) (ox oy x y : ℚ)
    (h1 : 0 ≤ x - ox) (h2 : x - ox < (dw : ℚ))
    (h3 : 0 ≤ y - oy) (h4 : y - oy < (dh : ℚ)) :
    ∃ (sx sy : ℤ) (dx dy : ℚ),
      displayToOriginalCoords (mkView (2 * dw) (2 * dh) dw dh ox oy) x y =
        some (sx, sy) ∧
      originalToDisplayCoords (mkView (2 * dw) (2 * dh) dw dh ox oy)
        (sx : ℚ) (sy : ℚ) = some (dx, dy) ∧
      0 ≤ (x - dx) * 2 ∧ (x - dx) * 2 < 1 ∧
      0 ≤ (y - dy) * 2 ∧ (y - dy) * 2 < 1 := by
  have hdw0 : (0 : ℚ) < (dw : ℚ) := lt_of_le_of_lt h1 h2
  have hdh0 : (0 : ℚ) < (dh : ℚ) := lt_of_le_of_lt h3 h4
  have hdwne : (dw : ℚ) ≠ 0 := ne_of_gt hdw0
  have hdhne : (dh : ℚ) ≠ 0 := ne_of_gt hdh0
  have hex : (x - ox) / (dw : ℚ) * (((2 * dw : ℕ) : ℕ) : ℚ) = 2 * (x - ox) := by
    push_cast
    field_simp
    ring
  have hey : (y - oy) / (dh : ℚ) * (((2 * dh : ℕ) : ℕ) : ℚ) = 2 * (y - oy) := by
    push_cast
    field_simp
    ring
  have hfx0 : (0 : ℤ) ≤ ⌊2 * (x - ox)⌋ := Int.floor_nonneg.mpr (by linarith)
  have hfy0 : (0 : ℤ) ≤ ⌊2 * (y - oy)⌋ := Int.floor_nonneg.mpr (by linarith)
  have hfxlt : ⌊2 * (x - ox)⌋ < ((2 * dw : ℕ) : ℤ) := by
    apply Int.floor_lt.mpr
    push_cast
    linarith
  have hfylt : ⌊2 * (y - oy)⌋ < ((2 * dh : ℕ) : ℤ) := by
    apply Int.floor_lt.mpr
    push_cast
    linarith
  refine ⟨⌊2 * (x - ox)⌋, ⌊2 * (y - oy)⌋,
    (⌊2 * (x - ox)⌋ : ℚ) / 2 + ox, (⌊2 * (y - oy)⌋ : ℚ) / 2 + oy,
    ?_, ?_, ?_, ?_, ?_, ?_⟩
  · simp only [displayToOriginalCoords, mkView, imgV]
    rw [if_neg (by push_neg; exact ⟨hdwne, hdhne⟩)]
    rw [if_neg (by push_neg; exact ⟨h1, h2, h3, h4⟩)]
    rw [hex, hey]
    rw [min_eq_left (by omega), min_eq_left (by omega)]
  · simp only [originalToDisplayCoords, mkView, imgV]
    rw [if_neg (by push_neg; exact ⟨hdwne, hdhne⟩)]
    rw [if_neg ?side]
    case side =>
      push_neg
      refine ⟨by exact_mod_cast hfx0, by exact_mod_cast hfxlt,
        by exact_mod_cast hfy0, by exact_mod_cast hfylt⟩
    simp only [Option.some.injEq, Prod.mk.injEq]
    constructor
    · push_cast
      field_simp
      ring
    · push_cast
      field_simp
      ring
  · have hdx : (x - ((⌊2 * (x - ox)⌋ : ℚ) / 2 + ox)) * 2 =
        2 * (x - ox) - (⌊2 * (x - ox)⌋ : ℚ) := by ring
    rw [hdx]
    have := Int.floor_le (2 * (x - ox))
    linarith
  · have hdx : (x - ((⌊2 * (x - ox)⌋ : ℚ) / 2 + ox)) * 2 =
        2 * (x - ox) - (⌊2 * (x - ox)⌋ : ℚ) := by ring
    rw [hdx]
    have := Int.lt_floor_add_one (2 * (x - ox))
    linarith
  · have hdy : (y - ((⌊2 * (y - oy)⌋ : ℚ) / 2 + oy)) * 2 =
        2 * (y - oy) - (⌊2 * (y - oy)⌋ : ℚ) := by ring
    rw [hdy]
    have := Int.floor_le (2 * (y - oy))
    linarith
  · have hdy : (y - ((⌊2 * (y - oy)⌋ : ℚ) / 2 + oy)) * 2 =
        2 * (y - oy) - (⌊2 * (y - oy)⌋ : ℚ) := by ring
    rw [hdy]
    have := Int.lt_floor_add_one (2 * (y - oy))
    linarith

lemma edgePoint_scale2 (dw dh : ℕ) (hdw : 1 ≤ dw) (hdh : 1 ≤ dh) (ox oy : ℚ) :
    displayToOriginalCoords (mkView (2 * dw) (2 * dh) dw dh ox oy)
      (ox + (dw : ℚ) - 1) oy = some (2 * (dw : ℤ) - 2, 0) := by
  have hdw0 : (0 : ℚ) < (dw : ℚ) := by exact_mod_cast hdw
  have hdh0 : (0 : ℚ) < (dh : ℚ) := by exact_mod_cast hdh
  have hdwne : (dw : ℚ) ≠ 0 := ne_of_gt hdw0
  have hdhne : (dh : ℚ) ≠ 0 := ne_of_gt hdh0
  have hdw1 : (1 : ℚ) ≤ (dw : ℚ) := by exact_mod_cast hdw
  simp only [displayToOriginalCoords, mkView, imgV]
  rw [if_neg (by push_neg; exact ⟨hdwne, hdhne⟩)]
  rw [if_neg (by push_neg; refine ⟨by linarith, by linarith, by linarith, by linarith⟩)]
  have hargx : (ox + (dw : ℚ) - 1 - ox) / (dw : ℚ) * (((2 * dw : ℕ) : ℕ) : ℚ) =
      ((2 * (dw : ℤ) - 2 : ℤ) : ℚ) := by
    push_cast
    field_simp
    ring
  have hargy : (oy - oy) / (dh : ℚ) * (((2 * dh : ℕ) : ℕ) : ℚ) = 0 := by
    simp
  rw [hargx, hargy, Int.floor_intCast, Int.floor_zero]
  rw [min_eq_left (by push_cast; omega), min_eq_left (by push_cast; omega)]

/-- C3 (amended): `displayToOriginalCoords` returns null exactly when the
offset-subtracted point falls outside `[0, displayedWidth) × [0,
displayedHeight)` and otherwise floors the scaled coordinate and clamps it
to at most `dimension - 1` (so strictly below the dimension, never
`width`); with `scaleX = scaleY = 2` the round trip through
`originalToDisplayCoords` recovers every interior point within one source
pixel, and a display point at `displayedWidth - 1` maps to source
`x = width - 2` (not `width - 1` as originally claimed). -/
theorem displayToOriginalCoords_amended_claim :
    (∀ (s : AnalyzerState) (img : Img) (x y : ℚ), s.currentImage = some img →
      (displayToOriginalCoords s x y = none ↔
        ¬(0 ≤ x - s.imageOffsetX ∧ x - s.imageOffsetX < s.displayedWidth ∧
          0 ≤ y - s.imageOffsetY ∧ y - s.imageOffsetY < s.displayedHeight))) ∧
    (∀ (s : AnalyzerState) (img : Img) (x y : ℚ) (p : ℤ × ℤ),
      s.currentImage = some img → displayToOriginalCoords s x y = some p →
      p.1 = min ⌊(x - s.imageOffsetX) / s.displayedWidth * (img.width : ℚ)⌋
          ((img.width : ℤ) - 1) ∧
      p.2 = min ⌊(y - s.imageOffsetY) / s.displayedHeight * (img.height : ℚ)⌋
          ((img.height : ℤ) - 1) ∧
      p.1 < (img.width : ℤ) ∧ p.2 < (img.height : ℤ)) ∧
    (∀ (dw dh : ℕ) (ox oy x y : ℚ),
      0 ≤ x - ox → x - ox < (dw : ℚ) → 0 ≤ y - oy → y - oy < (dh : ℚ) →
      ∃ (sx sy : ℤ) (dx dy : ℚ),
        displayToOriginalCoords (mkView (2 * dw) (2 * dh) dw dh ox oy) x y =
          some (sx, sy) ∧
        originalToDisplayCoords (mkView (2 * dw) (2 * dh) dw dh ox oy)
          (sx : ℚ) (sy : ℚ) = some (dx, dy) ∧
        0 ≤ (x - dx) * 2 ∧ (x - dx) * 2 < 1 ∧
        0 ≤ (y - dy) * 2 ∧ (y - dy) * 2 < 1) ∧
    (∀ (dw dh : ℕ), 1 ≤ dw → 1 ≤ dh → ∀ ox oy : ℚ,
      displayToOriginalCoords (mkView (2 * dw) (2 * dh) dw dh ox oy)
        (ox + (dw : ℚ) - 1) oy = some (2 * (dw : ℤ) - 2, 0)) :=
  ⟨displayToOriginalCoords_none_iff,
   displayToOriginalCoords_some,
   roundTrip_scale2,
   fun dw dh hdw hdh ox oy => edgePoint_scale2 dw dh hdw hdh ox oy⟩

/-- Witness for C3 (amended): all four parts instantiated on the 20 × 20
image displayed at 10 × 10 with zero offset. -/
theorem displayToOriginalCoords_amended_claim_witness :
    (displayToOriginalCoords (mkView 20 20 10 10 0 0) 25 0 = none ↔
      ¬(0 ≤ (25 : ℚ) - (mkView 20 20 10 10 0 0).imageOffsetX ∧
        (25 : ℚ) - (mkView 20 20 10 10 0 0).imageOffsetX <
          (mkView 20 20 10 10 0 0).displayedWidth ∧
        0 ≤ (0 : ℚ) - (mkView 20 20 10 10 0 0).imageOffsetY ∧
        (0 : ℚ) - (mkView 20 20 10 10 0 0).imageOffsetY <
          (mkView 20 20 10 10 0 0).displayedHeight)) ∧
    ((18 : ℤ) = min ⌊((9 : ℚ) - (mkView 20 20 10 10 0 0).imageOffsetX) /
        (mkView 20 20 10 10 0 0).displayedWidth * ((imgV 20 20).width : ℚ)⌋
        (((imgV 20 20).width : ℤ) - 1) ∧
      (18 : ℤ) < ((imgV 20 20).width : ℤ)) ∧
    (∃ (sx sy : ℤ) (dx dy : ℚ),
      displayToOriginalCoords (mkView (2 * 10) (2 * 10) 10 10 0 0) (9 / 2) 3 =
        some (sx, sy) ∧
      originalToDisplayCoords (mkView (2 * 10) (2 * 10) 10 10 0 0)
        (sx : ℚ) (sy : ℚ) = some (dx, dy) ∧
      0 ≤ ((9 / 2 : ℚ) - dx) * 2 ∧ ((9 / 2 : ℚ) - dx) * 2 < 1 ∧
      0 ≤ ((3 : ℚ) - dy) * 2 ∧ ((3 : ℚ) - dy) * 2 < 1) ∧
    displayToOriginalCoords (mkView (2 * 10) (2 * 10) 10 10 0 0)
      (0 + (10 : ℚ) - 1) 0 = some (2 * (10 : ℤ) - 2, 0) := by
  have hsome : displayToOriginalCoords (mkView 20 20 10 10 0 0) 9 0 = some (18, 0) := by
    simp only [displayToOriginalCoords, mkView, imgV]
    norm_num
  refine ⟨displayToOriginalCoords_amended_claim.1 (mkView 20 20 10 10 0 0)
      (imgV 20 20) 25 0 rfl, ?_, ?_, ?_⟩
  · have h2 := displayToOriginalCoords_amended_claim.2.1 (mkView 20 20 10 10 0 0)
      (imgV 20 20) 9 0 (18, 0) rfl hsome
    exact ⟨h2.1, h2.2.2.1⟩
  · exact displayToOriginalCoords_amended_claim.2.2.1 10 10 0 0 (9 / 2) 3
      (by norm_num) (by norm_num) (by norm_num) (by norm_num)
  · exact displayToOriginalCoords_amended_claim.2.2.2 10 10
      (by norm_num) (by norm_num) 0 0

lemma quartileGo_snd (q1t q3t : ℚ) (l : List ℕ) : ∀ i cum q1 q3d : ℕ,
    (quartileGo q1t q3t l i cum q1 q3d).2 =
      (match firstReach q3t cum l with
       | some k => i + k
       | none => q3d) := by
  induction l with
  | nil => intro i cum q1 q3d; rfl
  | cons c rest ih =>
      intro i cum q1 q3d
      by_cases h3 : q3t ≤ ((cum + c : ℕ) : ℚ)
      · simp only [quartileGo, firstReach, if_pos h3]
        simp
      · simp only [quartileGo, firstReach, if_neg h3, ih]
        cases hfr : firstReach q3t (cum + c) rest with
        | none => simp
        | some k =>
            simp only [Option.map_some']
            ring

lemma quartileGo_fst_stable (q1t q3t : ℚ) (l : List ℕ) :
    ∀ i cum q1 q3d : ℕ, q1 ≠ 0 →
    (quartileGo q1t q3t l i cum q1 q3d).1 = q1 := by
  induction l with
  | nil => intro i cum q1 q3d _; rfl
  | cons c rest ih =>
      intro i cum q1 q3d hq
      simp only [quartileGo, if_neg (by simp [hq] : ¬(q1 = 0 ∧ q1t ≤ ((cum + c : ℕ) : ℚ)))]
      by_cases h3 : q3t ≤ ((cum + c : ℕ) : ℚ)
      · rw [if_pos h3]
      · rw [if_neg h3]
        exact ih (i + 1) (cum + c) q1 q3d hq

lemma quartileGo_fst_zero (q1t q3t : ℚ) (hle : q1t ≤ q3t) (l : List ℕ) :
    ∀ i cum : ℕ,
    (quartileGo q1t q3t l i cum 0 0).1 =
      (match firstReach q1t cum l, firstReach q3t cum l with
       | some j, some k => if i + j = 0 then (if k = 0 then 0 else 1) else i + j
       | some j, none => if i + j = 0 then (if l.length ≤ 1 then 0 else 1) else i + j
       | none, _ => 0) := by
  induction l with
  | nil => intro i cum; rfl
  | cons c rest ih =>
      intro i cum
      by_cases h3 : q3t ≤ ((cum + c : ℕ) : ℚ)
      · have h1 : q1t ≤ ((cum + c : ℕ) : ℚ) := le_trans hle h3
        simp only [quartileGo, firstReach, if_pos h3, if_pos h1, eq_self_iff_true,
          true_and]
        by_cases hi : i = 0
        · simp [hi]
        · simp [hi]
      · by_cases h1 : q1t ≤ ((cum + c : ℕ) : ℚ)
        · simp only [quartileGo, firstReach, if_neg h3, if_pos h1, eq_self_iff_true,
            true_and]
          by_cases hi : i = 0
          · subst hi
            rw [ih 1 (cum + c)]
            cases rest with
            | nil => simp [firstReach]
            | cons c2 rest2 =>
                have h1c : q1t ≤ ((cum + c + c2 : ℕ) : ℚ) :=
                  le_trans h1 (Nat.cast_le.mpr (by omega))
                rw [show firstReach q1t (cum + c) (c2 :: rest2) = some 0 from by
                  have h1cq : q1t ≤ ((cum : ℚ) + (c : ℚ) + (c2 : ℚ)) := by
                    push_cast at h1c
                    linarith
                  simp [firstReach, h1cq]]
                cases hfr3 : firstReach q3t (cum + c) (c2 :: rest2) with
                | none => simp
                | some k3 => simp
          · rw [quartileGo_fst_stable q1t q3t rest (i + 1) (cum + c) i 0 hi]
            cases hfr3 : firstReach q3t (cum + c) rest with
            | none => simp [hi]
            | some k3 => simp [hi]
        · simp only [quartileGo, firstReach, if_neg h3, if_neg h1, eq_self_iff_true,
            true_and]
          rw [ih (i + 1) (cum + c)]
          cases hfr1 : firstReach q1t (cum + c) rest with
          | none =>
              cases hfr3 : firstReach q3t (cum + c) rest with
              | none => simp
              | some k3 => simp
          | some j1 =>
              cases hfr3 : firstReach q3t (cum + c) rest with
              | none =>
                  simp only [Option.map_some', Option.map_none']
                  rw [if_neg (by simp), if_neg (by simp)]
                  ring
              | some k3 =>
                  simp only [Option.map_some']
                  rw [if_neg (by simp), if_neg (by simp)]
                  ring

/-- C8 counterexample: on the histogram with count `1` at index `0` and
count `3` at index `5` (total `4`), the cumulative count at index `0`
already reaches `total·0.25`, so the smallest qualifying index is `0` —
but the source computes `q1 = 1`, because its `q1 === 0` guard cannot
distinguish "`q1` unset" from "`q1` set to bin 0" and re-assigns `q1` at
the next bin. -/
theorem quartiles_claim_counterexample :
    computeQuartiles c8Hist = (1, 5) ∧
    (c8Hist.sum : ℚ) * (1 / 4) ≤ (cumCount c8Hist 0 : ℚ) ∧
    (computeQuartiles c8Hist).1 ≠ 0 := by
  have hsum : c8Hist.sum = 4 := by decide
  have heval : computeQuartiles c8Hist = (1, 5) := by
    rw [computeQuartiles, hsum, quartileGo_eq_quartileGoN]
    decide
  refine ⟨heval, ?_, by rw [heval]; decide⟩
  rw [hsum]
  norm_num [cumCount, c8Hist]

/-- C8 (amended): for every histogram with positive total, the single
left-to-right scan stops at `q3` = the smallest index whose cumulative
count reaches `total·0.75`, and `q1` is the smallest index whose
cumulative count reaches `total·0.25` — except that when that smallest
index is `0` and the scan continues past index `0`, the `q1 === 0` guard
makes the source report `q1 = 1` instead. -/
theorem quartiles_amended_claim :
    ∀ h : List ℕ, h.sum ≠ 0 → ∀ q1 q3 : ℕ,
      computeQuartiles h = (q1, q3) → quartilesSpec h q1 q3 := by
  intro h h0 q1 q3 heq
  have hsnonneg : (0 : ℚ) ≤ (h.sum : ℚ) := Nat.cast_nonneg _
  have hspos : (0 : ℚ) < (h.sum : ℚ) := by exact_mod_cast Nat.pos_of_ne_zero h0
  have hle : (h.sum : ℚ) * (1 / 4) ≤ (h.sum : ℚ) * (3 / 4) :=
    mul_le_mul_of_nonneg_left (by norm_num) hsnonneg
  have hne : h ≠ [] := fun hnil => h0 (by simp [hnil])
  rw [computeQuartiles] at heq
  have h1q : (quartileGo ((h.sum : ℚ) * (1 / 4)) ((h.sum : ℚ) * (3 / 4)) h 0 0 0 0).1 = q1 := by
    rw [heq]
  have h2q : (quartileGo ((h.sum : ℚ) * (1 / 4)) ((h.sum : ℚ) * (3 / 4)) h 0 0 0 0).2 = q3 := by
    rw [heq]
  rw [quartileGo_snd] at h2q
  rw [quartileGo_fst_zero _ _ hle] at h1q
  rcases hk : firstReach ((h.sum : ℚ) * (3 / 4)) 0 h with _ | k
  · exfalso
    have hlt := firstReach_none ((h.sum : ℚ) * (3 / 4)) h 0 hk (h.length - 1)
      (by
        have : 0 < h.length := List.length_pos.mpr hne
        omega)
    rw [show h.length - 1 + 1 = h.length by
        have : 0 < h.length := List.length_pos.mpr hne
        omega,
      List.take_length] at hlt
    simp only [Nat.zero_add] at hlt
    nlinarith
  · rw [hk] at h2q h1q
    simp only [Nat.zero_add] at h2q
    obtain ⟨hklen, hkge, hklt⟩ := firstReach_some _ h 0 k hk
    simp only [Nat.zero_add] at hkge hklt
    subst h2q
    rcases hj : firstReach ((h.sum : ℚ) * (1 / 4)) 0 h with _ | j
    · exfalso
      have hlt := firstReach_none ((h.sum : ℚ) * (1 / 4)) h 0 hj k hklen
      simp only [Nat.zero_add] at hlt
      exact absurd (le_trans hle hkge) (not_le.mpr hlt)
    · rw [hj] at h1q
      simp only [Nat.zero_add] at h1q
      obtain ⟨hjlen, hjge, hjlt⟩ := firstReach_some _ h 0 j hj
      simp only [Nat.zero_add] at hjge hjlt
      refine ⟨⟨hklen, hkge, fun j2 hj2 => hklt j2 hj2⟩, ?_, ?_⟩
      · intro hc0
        have hj0 : j = 0 := by
          by_contra hne0
          have := hjlt 0 (Nat.pos_of_ne_zero hne0)
          simp only [cumCount] at hc0
          exact absurd hc0 (not_le.mpr this)
        subst hj0
        simp only [Nat.add_zero, eq_self_iff_true, if_true] at h1q
        constructor
        · intro hk0
          subst hk0
          simpa using h1q.symm
        · intro hkpos
          rw [← h1q, if_neg (Nat.pos_iff_ne_zero.mp hkpos)]
      · intro hc0
        have hjne : j ≠ 0 := by
          intro h00
          subst h00
          simp only [cumCount] at hc0
          exact absurd hjge (not_le.mpr hc0)
        rw [← h1q, if_neg hjne]
        refine ⟨hjge, fun j2 hj2 => hjlt j2 hj2⟩

/-- Witness for C8 (amended): the histogram `[0,2,0,2]` (total `4`) gets
`q1 = 1` and `q3 = 3`, matching the amended characterization. -/
theorem quartiles_amended_claim_witness :
    c8Hist2.sum ≠ 0 ∧ computeQuartiles c8Hist2 = (1, 3) ∧
    quartilesSpec c8Hist2 1 3 := by
  have hsum : c8Hist2.sum = 4 := by decide
  have heval : computeQuartiles c8Hist2 = (1, 3) := by
    rw [computeQuartiles, hsum, quartileGo_eq_quartileGoN]
    decide
  exact ⟨by decide, heval, quartiles_amended_claim c8Hist2 (by decide) 1 3 heval⟩

lemma getLast?_cons_of_head? {α : Type} (a : α) (l : List α) (p : α)
    (h : l.head? = some p) : (a :: l).getLast? = l.getLast? := by
  cases l with
  | nil => cases h
  | cons b t => rw [List.getLast?_cons_cons]

lemma bresPointsAux_spec (x1 y1 dx dy sx sy : ℤ)
    (hdx : 0 ≤ dx) (hdy : dy ≤ 0)
    (hsx : sx = 1 ∨ sx = -1) (hsy : sy = 1 ∨ sy = -1) :
    ∀ (n : ℕ) (x y err : ℤ),
      0 ≤ (x1 - x) * sx → (x1 - x) * sx ≤ dx →
      0 ≤ (y1 - y) * sy → (y1 - y) * sy ≤ -dy →
      err = dx + dy - ((y1 - y) * sy) * dx - ((x1 - x) * sx) * dy →
      ((x1 - x) * sx + (y1 - y) * sy).toNat < n →
      (bresPointsAux x1 y1 dx dy sx sy n x y err).head? = some (x, y) ∧
      (bresPointsAux x1 y1 dx dy sx sy n x y err).getLast? = some (x1, y1) := by
  have hsx2 : sx * sx = 1 := by rcases hsx with rfl | rfl <;> norm_num
  have hsy2 : sy * sy = 1 := by rcases hsy with rfl | rfl <;> norm_num
  intro n
  induction n with
  | zero =>
      intro x y err _ _ _ _ _ hn
      exact absurd hn (Nat.not_lt_zero _)
  | succ n ih =>
      intro x y err ha0 hadx hb0 hbdy herr hn
      by_cases hend : x = x1 ∧ y = y1
      · simp only [bresPointsAux, if_pos hend]
        exact ⟨rfl, by simp [hend.1, hend.2]⟩
      · have hax : (x1 - x) * sx = 0 → x = x1 := by
          intro h0
          rcases hsx with rfl | rfl <;> omega
        have hby : (y1 - y) * sy = 0 → y = y1 := by
          intro h0
          rcases hsy with rfl | rfl <;> omega
        have ha1 : dy ≤ 2 * err → 1 ≤ (x1 - x) * sx := by
          intro cx
          by_contra hlt
          push_neg at hlt
          have ha0' : (x1 - x) * sx = 0 := by omega
          have hbne : (y1 - y) * sy ≠ 0 := fun h0 => hend ⟨hax ha0', hby h0⟩
          have hb1 : 1 ≤ (y1 - y) * sy := by omega
          have hprod0 : ((x1 - x) * sx) * dy = 0 := by rw [ha0']; ring
          have hmul : 0 ≤ dx * ((y1 - y) * sy - 1) := mul_nonneg hdx (by omega)
          have hdy1 : dy ≤ -1 := by omega
          nlinarith [herr, hmul, hdy1, hprod0]
        have hb1 : 2 * err ≤ dx → 1 ≤ (y1 - y) * sy := by
          intro cy
          by_contra hlt
          push_neg at hlt
          have hb0' : (y1 - y) * sy = 0 := by omega
          have hane : (x1 - x) * sx ≠ 0 := fun h0 => hend ⟨hax h0, hby hb0'⟩
          have ha1' : 1 ≤ (x1 - x) * sx := by omega
          have hprod0 : ((y1 - y) * sy) * dx = 0 := by rw [hb0']; ring
          have hmul : 0 ≤ (-dy) * ((x1 - x) * sx - 1) :=
            mul_nonneg (by omega) (by omega)
          have hdx1 : 1 ≤ dx := by omega
          nlinarith [herr, hmul, hdx1, hprod0]
        have hstep : ∀ x2 y2 err2 : ℤ,
            0 ≤ (x1 - x2) * sx → (x1 - x2) * sx ≤ dx →
            0 ≤ (y1 - y2) * sy → (y1 - y2) * sy ≤ -dy →
            err2 = dx + dy - ((y1 - y2) * sy) * dx - ((x1 - x2) * sx) * dy →
            ((x1 - x2) * sx + (y1 - y2) * sy).toNat < n →
            ((x, y) :: bresPointsAux x1 y1 dx dy sx sy n x2 y2 err2).head? =
              some (x, y) ∧
            ((x, y) :: bresPointsAux x1 y1 dx dy sx sy n x2 y2 err2).getLast? =
              some (x1, y1) := by
          intro x2 y2 err2 p1 p2 p3 p4 p5 p6
          obtain ⟨ihh, ihl⟩ := ih x2 y2 err2 p1 p2 p3 p4 p5 p6
          exact ⟨rfl, by rw [getLast?_cons_of_head? _ _ _ ihh]; exact ihl⟩
        have hax' : (x1 - (x + sx)) * sx = (x1 - x) * sx - 1 := by
          have h : (x1 - (x + sx)) * sx = (x1 - x) * sx - sx * sx := by ring
          rw [h, hsx2]
        have hby' : (y1 - (y + sy)) * sy = (y1 - y) * sy - 1 := by
          have h : (y1 - (y + sy)) * sy = (y1 - y) * sy - sy * sy := by ring
          rw [h, hsy2]
        by_cases cx : dy ≤ 2 * err
        · by_cases cy : 2 * err ≤ dx
          · -- both coordinates advance
            have hxa := ha1 cx
            have hyb := hb1 cy
            simp only [bresPointsAux, if_neg hend, if_pos cx, if_pos cy]
            apply hstep
            · rw [hax']; omega
            · rw [hax']; omega
            · rw [hby']; omega
            · rw [hby']; omega
            · rw [hax', hby']
              linear_combination herr
            · rw [hax', hby']
              omega
          · -- only x advances
            have hxa := ha1 cx
            simp only [bresPointsAux, if_neg hend, if_pos cx, if_neg cy]
            apply hstep
            · rw [hax']; omega
            · rw [hax']; omega
            · exact hb0
            · exact hbdy
            · rw [hax']
              linear_combination herr
            · rw [hax']
              omega
        · -- only y advances
          have cy : 2 * err ≤ dx := by
            push_neg at cx
            linarith
          have hyb := hb1 cy
          simp only [bresPointsAux, if_neg hend, if_neg cx, if_pos cy]
          apply hstep
          · exact ha0
          · exact hadx
          · rw [hby']; omega
          · rw [hby']; omega
          · rw [hby']
            linear_combination herr
          · rw [hby']
            omega

lemma bresPoints_endpoints (x0 y0 x1 y1 : ℤ) :
    (bresPoints x0 y0 x1 y1).head? = some (x0, y0) ∧
    (bresPoints x0 y0 x1 y1).getLast? = some (x1, y1) := by
  rw [bresPoints]
  have ha : (x1 - x0) * (if x0 < x1 then (1 : ℤ) else -1) = |x1 - x0| := by
    by_cases h : x0 < x1
    · rw [if_pos h, abs_of_nonneg (by omega)]
      ring
    · rw [if_neg h, abs_of_nonpos (by omega)]
      ring
  have hb : (y1 - y0) * (if y0 < y1 then (1 : ℤ) else -1) = |y1 - y0| := by
    by_cases h : y0 < y1
    · rw [if_pos h, abs_of_nonneg (by omega)]
      ring
    · rw [if_neg h, abs_of_nonpos (by omega)]
      ring
  apply bresPointsAux_spec x1 y1 |x1 - x0| (-|y1 - y0|)
    (if x0 < x1 then 1 else -1) (if y0 < y1 then 1 else -1)
    (abs_nonneg _) (by have := abs_nonneg (y1 - y0); omega)
    (by by_cases h : x0 < x1 <;> simp [h])
    (by by_cases h : y0 < y1 <;> simp [h])
  · rw [ha]
    exact abs_nonneg _
  · rw [ha]
  · rw [hb]
    exact abs_nonneg _
  · rw [hb]
    omega
  · rw [ha, hb]
    ring
  · rw [ha, hb]
    omega

lemma lineSourcePoints_a6 : lineSourcePoints img6 a6 (0, 0) (5, 0) = bresPoints 0 0 5 0 := by
  simp only [lineSourcePoints, a6, img6]
  norm_num [round_eq]

lemma bresPoints_a6_eval :
    bresPoints 0 0 5 0 = [(0, 0), (1, 0), (2, 0), (3, 0), (4, 0), (5, 0)] := by
  decide

lemma pixelSamplerSample_a6 :
    pixelSamplerSample a6 (0, 0) (5, 0) =
      some ⟨[0, 40, 80, 120, 160, 200], [0, 0, 0, 0, 0, 0], [0, 0, 0, 0, 0, 0],
        [jsBrightness 0 0 0, jsBrightness 40 0 0, jsBrightness 80 0 0,
         jsBrightness 120 0 0, jsBrightness 160 0 0, jsBrightness 200 0 0]⟩ := by
  simp only [pixelSamplerSample, show a6.currentImage = some img6 from rfl]
  rw [lineSourcePoints_a6, bresPoints_a6_eval]
  simp only [List.foldl_cons, List.foldl_nil, samplePush, getOriginalPixelDataImg, img6]
  norm_num [Int.toNat_ofNat]
  refine ⟨⟨rfl, rfl, rfl, rfl, rfl⟩, rfl, rfl, rfl, rfl, rfl⟩

/-- C4: the Bresenham loop of `PixelSampler.sample` terminates for every
pair of integer source endpoints and visits both of them — the emitted
point list begins at the start point and ends exactly at the end point
(reaching the end point is precisely the loop's `break` condition, so this
also certifies termination); sampling `(0,0)–(5,0)` on a 6 × 1 image under
the identity transform yields 6 entries whose first and last brightness
values are the two endpoint pixels' brightness. -/
theorem bresenham_endpoints_claim :
    (∀ x0 y0 x1 y1 : ℤ,
      (bresPoints x0 y0 x1 y1).head? = some (x0, y0) ∧
      (bresPoints x0 y0 x1 y1).getLast? = some (x1, y1)) ∧
    (pixelSamplerSample a6 (0, 0) (5, 0)).map (fun v => v.brightness.length) =
      some 6 ∧
    (pixelSamplerSample a6 (0, 0) (5, 0)).map (fun v => v.brightness.head?) =
      some ((getOriginalPixelDataImg img6 0 0).map (fun px => px.brightness)) ∧
    (pixelSamplerSample a6 (0, 0) (5, 0)).map (fun v => v.brightness.getLast?) =
      some ((getOriginalPixelDataImg img6 5 0).map (fun px => px.brightness)) := by
  refine ⟨fun x0 y0 x1 y1 => bresPoints_endpoints x0 y0 x1 y1, ?_, ?_, ?_⟩
  · rw [pixelSamplerSample_a6]
    rfl
  · rw [pixelSamplerSample_a6]
    simp only [Option.map_some']
    simp [getOriginalPixelDataImg, img6]
  · rw [pixelSamplerSample_a6]
    simp only [Option.map_some']
    simp [getOriginalPixelDataImg, img6]

lemma samplePush_foldl (img : Img) (pts : List (ℤ × ℤ)) :
    ∀ acc : LineValues,
    pts.foldl (samplePush img) acc =
      ⟨acc.r ++ pts.filterMap
          (fun p => (getOriginalPixelDataImg img p.1 p.2).map (fun px => px.r)),
       acc.g ++ pts.filterMap
          (fun p => (getOriginalPixelDataImg img p.1 p.2).map (fun px => px.g)),
       acc.b ++ pts.filterMap
          (fun p => (getOriginalPixelDataImg img p.1 p.2).map (fun px => px.b)),
       acc.brightness ++ pts.filterMap
          (fun p => (getOriginalPixelDataImg img p.1 p.2).map (fun px => px.brightness))⟩ := by
  induction pts with
  | nil => intro acc; simp
  | cons p rest ih =>
      intro acc
      cases hpx : getOriginalPixelDataImg img p.1 p.2 with
      | none => simp [List.foldl_cons, samplePush, hpx, ih, List.filterMap_cons]
      | some px => simp [List.foldl_cons, samplePush, hpx, ih, List.filterMap_cons]

lemma filterMap_map_length {α β γ : Type} (g : α → Option β) (f : β → γ)
    (l : List α) :
    (l.filterMap (fun a => (g a).map f)).length = (l.filterMap g).length := by
  induction l with
  | nil => rfl
  | cons a rest ih =>
      cases hga : g a <;> simp [List.filterMap_cons, hga, ih]

/-- C7: `PixelSampler.sample` returns null exactly when no image is
loaded; on a loaded image each rasterized step appends its R, G, B and
brightness values only when the pixel read succeeds (out-of-bounds steps
are silently skipped, not zero-filled), the four parallel sequences always
have equal length, and a line whose every step falls outside the image
yields four empty sequences rather than null. -/
theorem pixelSampler_sample_matches_claim :
    (∀ (s : AnalyzerState) (a b : ℚ × ℚ),
      pixelSamplerSample s a b = none ↔ s.currentImage = none) ∧
    (∀ (s : AnalyzerState) (img : Img) (a b : ℚ × ℚ) (v : LineValues),
      s.currentImage = some img → pixelSamplerSample s a b = some v →
      lineSampleSpec img s a b v) := by
  constructor
  · intro s a b
    cases himg : s.currentImage with
    | none => simp [pixelSamplerSample, himg]
    | some img => simp [pixelSamplerSample, himg]
  · intro s img a b v himg hv
    simp only [pixelSamplerSample, himg, Option.some.injEq] at hv
    rw [samplePush_foldl img (lineSourcePoints img s a b) ⟨[], [], [], []⟩] at hv
    simp only [List.nil_append] at hv
    subst hv
    refine ⟨⟨rfl, rfl, rfl, rfl⟩, ?_, ?_⟩
    · refine ⟨?_, ?_, ?_⟩ <;>
        simp only [filterMap_map_length]
    · intro hall
      have hnil : ∀ f : PixelData → ℕ,
          (lineSourcePoints img s a b).filterMap
            (fun p => (getOriginalPixelDataImg img p.1 p.2).map f) = [] := by
        intro f
        apply List.filterMap_eq_nil_iff.mpr
        intro p hp
        rw [hall p hp]
        rfl
      simp only [hnil]

/-- Witness for C7 on the 6 × 1 identity-transform example. -/
theorem pixelSampler_sample_matches_claim_witness :
    a6.currentImage = some img6 ∧
    lineSampleSpec img6 a6 (0, 0) (5, 0)
      ⟨[0, 40, 80, 120, 160, 200], [0, 0, 0, 0, 0, 0], [0, 0, 0, 0, 0, 0],
       [jsBrightness 0 0 0, jsBrightness 40 0 0, jsBrightness 80 0 0,
        jsBrightness 120 0 0, jsBrightness 160 0 0, jsBrightness 200 0 0]⟩ :=
  ⟨rfl, pixelSampler_sample_matches_claim.2 a6 img6 (0, 0) (5, 0) _ rfl
    pixelSamplerSample_a6⟩
